import Mathlib

/-!
# Environment controller of dpanel (`app/common/http/controller/env.go`)

A shallow embedding of the five request handlers of the `Env` controller
(`GetList`, `Create`, `Switch`, `Delete`, `GetDetail`) as state-passing
functions over an explicit `World`, followed by theorems about them.

The process-wide variable `docker.Sdk`, the settings table, the file system,
the event bus and the life-cycle of client handles are fields of `World`.
Everything the handlers cannot decide themselves (whether a daemon answers,
whether a directory can be created, where the storage roots are) is read
from a `Collab` record, so every theorem holds for all behaviours of the
surroundings.
-/

namespace DPanel

/-! ## Strings and paths (Go standard library, Unix flavour) -/

/-- Go `strings.HasSuffix`. -/
def hasSuffix (s suffix : String) : Bool :=
  suffix.data.isSuffixOf s.data

/-- Search for the first occurrence of `sep`; the parts before and after it. -/
def cutChars (sep : List Char) : List Char → Option (List Char × List Char)
  | [] => if sep = [] then some ([], []) else none
  | c :: cs =>
    if sep.isPrefixOf (c :: cs) then some ([], (c :: cs).drop sep.length)
    else
      match cutChars sep cs with
      | some (b, a) => some (c :: b, a)
      | none => none

/-- Go `strings.Cut(s, sep)`: `(before, after, found)`; when `sep` does not
occur the result is `(s, "", false)`. -/
def stringsCut (s sep : String) : String × String × Bool :=
  match cutChars sep.data s.data with
  | some (b, a) => (String.mk b, String.mk a, true)
  | none => (s, "", false)

/-- Split a path at every `/`. -/
def splitSlash : List Char → List (List Char)
  | [] => [[]]
  | c :: cs =>
    match splitSlash cs with
    | [] => [[]]
    | h :: t => if c = '/' then [] :: h :: t else (c :: h) :: t

/-- One element of the lexical clean-up of `path.Clean`; `stack` holds the
elements kept so far, last one first. -/
def cleanStep (rooted : Bool) (stack : List (List Char)) (comp : List Char) :
    List (List Char) :=
  if comp = [] ∨ comp = ['.'] then stack
  else if comp = ['.', '.'] then
    match stack with
    | top :: rest => if top = ['.', '.'] then comp :: stack else rest
    | [] => if rooted then [] else [comp]
  else comp :: stack

/-- The elements `filepath.Clean` keeps of a path, last one first. -/
def cleanStack (p : List Char) : List (List Char) :=
  (splitSlash p).foldl (cleanStep (p.head? = some '/')) []

/-- Go `filepath.Clean` on a Unix path. -/
def cleanChars (p : List Char) : List Char :=
  let body := List.intercalate ['/'] (cleanStack p).reverse
  let out := if p.head? = some '/' then '/' :: body else body
  if out = [] then ['.'] else out

/-- Go `filepath.Join` on character lists: empty elements in front are
dropped, the rest is joined with `/` and cleaned; no non-empty element gives
the empty path. -/
def joinChars (elem : List (List Char)) : List Char :=
  match elem.dropWhile (fun e => e.isEmpty) with
  | [] => []
  | rest => cleanChars (List.intercalate ['/'] rest)

/-- Go `filepath.Join`. -/
def filepathJoin (elem : List String) : String :=
  String.mk (joinChars (elem.map String.data))

/-- A single path element that names itself: not empty, without `/`, and
neither `.` nor `..`. -/
def PlainElement (x : List Char) : Prop :=
  x ≠ [] ∧ '/' ∉ x ∧ x ≠ ['.'] ∧ x ≠ ['.', '.']

instance (x : List Char) : Decidable (PlainElement x) :=
  inferInstanceAs (Decidable (x ≠ [] ∧ '/' ∉ x ∧ x ≠ ['.'] ∧ x ≠ ['.', '.']))

/-- The part of a path up to and including its last `/`. -/
def uptoLastSlash : List Char → List Char
  | [] => []
  | c :: cs =>
    if '/' ∈ cs then c :: uptoLastSlash cs
    else if c = '/' then [c] else []

/-- Go `filepath.Dir` on a Unix path. -/
def filepathDir (p : String) : String :=
  String.mk (cleanChars (uptoLastSlash p.data))

/-! ## Data model -/

/-- `docker.ClientDockerInfo`: name and id of the daemon behind the default
environment. -/
structure ClientDockerInfo where
  Name : String
  ID : String
deriving DecidableEq, Repr

/-- `docker.Client`: one entry of the environment registry. -/
structure Client where
  Name : String
  Title : String
  Address : String
  ServerUrl : String
  TlsCa : String
  TlsCert : String
  TlsKey : String
  EnableTLS : Bool
  Default : Bool
  EnableComposePath : Bool
  ComposePath : String
  DockerInfo : Option ClientDockerInfo
deriving DecidableEq, Repr

/-- `setting.Value.Docker`, a Go `map[string]*docker.Client`.  The order of
the list stands for the order in which `range` happens to visit the map. -/
abbrev Registry := List (String × Client)

/-- Go `m[key]` with the `ok` flag. -/
def Registry.get (m : Registry) (key : String) : Option Client :=
  m.lookup key

/-- Go `delete(m, key)`. -/
def Registry.delete (m : Registry) (key : String) : Registry :=
  m.filter (fun e => e.1 != key)

/-- Go `m[key] = value`. -/
def Registry.set (m : Registry) (key : String) (value : Client) : Registry :=
  (key, value) :: m.delete key

/-- `docker.Option`: the arguments of the connection builder. -/
inductive DockerOption where
  | WithAddress (address : String)
  | WithName (name : String)
  | WithTLS (ca cert key : String)
deriving DecidableEq, Repr

/-- `docker.Builder`, the type of `docker.Sdk`: a live handle.  `id` stands
for the identity of the handle (its transport and its context), `host` for
what `Client.DaemonHost()` reports. -/
structure Builder where
  id : Nat
  Name : String
  host : String
  tls : Option (String × String × String)
deriving DecidableEq, Repr

/-- The kinds of error a handler answers with (`JsonResponseWithError`). -/
inductive Failure where
  | validation
  | tlsMaterialMissing
  | settingLoad
  | notFound
  | mkdir
  | write
  | build
  | connect
deriving DecidableEq, Repr

/-- What a handler writes to the HTTP response. -/
inductive Response where
  | success
  | failed (e : Failure)
  | listing (currentName : String) (list : List Client)
  | detail (env : Client)
deriving DecidableEq, Repr

/-- Is the response an error. -/
def Response.isError : Response → Bool
  | .failed _ => true
  | _ => false

/-- Everything the handlers read or change. -/
structure World where
  /-- The global `docker.Sdk`. -/
  Sdk : Builder
  /-- The registry as the settings collaborator holds it; `none` when
  `GetValue` of the docker group fails. -/
  docker : Option Registry
  /-- Identity the next handle built gets. -/
  nextHandle : Nat
  /-- One entry per call of a handle's `CtxCancelFunc`. -/
  cancelled : List Nat
  /-- One entry per call of a handle's `Client.Close`. -/
  closed : List Nat
  /-- Names carried by the published `EnvDeleteEvent`s, oldest first. -/
  published : List String
  /-- Handles active when a `MonitorLoop` task was started. -/
  monitorLoops : List Nat
  /-- Number of times the disk-usage entry was overwritten with an empty one. -/
  diskUsageResets : Nat
  /-- Number of times the panel-info entry was saved. -/
  dpanelInfoSaves : Nat
  /-- Directories created by `os.MkdirAll`, oldest first. -/
  dirs : List String
  /-- `os.WriteFile` calls that succeeded: path and content, oldest first. -/
  files : List (String × String)
deriving DecidableEq, Repr

/-- The surroundings of the controller: storage roots and the outcome of
every call that leaves the process. -/
structure Collab where
  /-- `storage.Local{}.GetStorageLocalPath()`. -/
  storageLocalPath : String
  /-- `storage.Local{}.GetStorageCertPath()`. -/
  storageCertPath : String
  /-- Does `docker.NewBuilder` return an error for these options. -/
  builderErr : List DockerOption → Bool
  /-- Outcome of the `n`-th `Client.Info` round-trip on a handle within one
  request; `none` is an error. -/
  info : Builder → Nat → Option ClientDockerInfo
  /-- Does `ContainerInfo` of the panel's own container fail. -/
  containerInfoErr : Builder → Bool
  /-- Does `os.MkdirAll` fail on this path. -/
  mkdirErr : String → Bool
  /-- Does `os.WriteFile` fail on this path. -/
  writeErr : String → Bool
  /-- Does `logic.Setting{}.Save` fail. -/
  saveErr : Bool
  /-- Host field of `url.Parse`; `none` when parsing fails. -/
  urlHost : String → Option String

/-! ## Collaborators outside the controller -/

/-- Modelled from the spec: the connection builder `docker.NewBuilder` is not
part of the controller source.  It "produces a handle bound to a freshly
created cancellable context; does not contact the daemon yet": the options
are applied in order to an empty handle that carries a fresh identity. -/
def applyOptions (options : List DockerOption) (id : Nat) : Builder :=
  options.foldl
    (fun b o =>
      match o with
      | .WithAddress a => { b with host := a }
      | .WithName n => { b with Name := n }
      | .WithTLS ca cert key => { b with tls := some (ca, cert, key) })
    { id := id, Name := "", host := "", tls := none }

/-- Modelled from the spec: `docker.NewBuilder(options...)`, returning the
candidate handle or an error; a handle that is returned takes the next free
identity. -/
def NewBuilder (c : Collab) (options : List DockerOption) (w : World) :
    Option Builder × World :=
  if c.builderErr options then (none, w)
  else (some (applyOptions options w.nextHandle),
        { w with nextHandle := w.nextHandle + 1 })

/-- A call of the handle's `CtxCancelFunc`. -/
def cancelCtx (b : Builder) (w : World) : World :=
  { w with cancelled := w.cancelled ++ [b.id] }

/-- A call of `Client.Close()` on the handle's transport. -/
def closeClient (b : Builder) (w : World) : World :=
  { w with closed := w.closed ++ [b.id] }

/-- Modelled from the spec: `Builder.Close()` is not part of the controller
source; a handle is "destroyed by cancelling its context and closing its
transport". -/
def Builder.Close (b : Builder) (w : World) : World :=
  closeClient b (cancelCtx b w)

/-- Modelled from the spec: `logic.Setting{}.GetValue` of the docker group is
not part of the controller source.  The settings collaborator is "an opaque
key-value persistence service" with `load() -> mapping`: each call hands out
the stored mapping afresh, so a change made to the result reaches the store
only through `Save`. -/
@[simp]
def GetValue (w : World) : Option Registry := w.docker

/-- Modelled from the spec: `logic.DockerEnv{}.UpdateEnv` is not part of the
controller source; `add(descriptor)` "overwrites any prior entry of the same
name".  A registry that cannot be loaded counts as empty. -/
def UpdateEnv (client : Client) (w : World) : World :=
  { w with docker := some (Registry.set ((GetValue w).getD []) client.Name client) }

/-- Modelled from the spec: `logic.DockerEnv{}.GetEnvByName` is not part of
the controller source; `get(name)` "returns the descriptor or NotFound". -/
def GetEnvByName (name : String) (w : World) : Except Failure Client :=
  match GetValue w with
  | none => .error .settingLoad
  | some reg =>
    match reg.get name with
    | some env => .ok env
    | none => .error .notFound

/-- `facade.GetEvent().Publish(event.EnvDeleteEvent, ...)`. -/
def publish (name : String) (w : World) : World :=
  { w with published := w.published ++ [name] }

/-- `os.MkdirAll`: `true` when it failed. -/
def MkdirAll (c : Collab) (path : String) (w : World) : Bool × World :=
  if c.mkdirErr path then (true, w) else (false, { w with dirs := w.dirs ++ [path] })

/-- `os.WriteFile`: `true` when it failed. -/
def WriteFile (c : Collab) (path content : String) (w : World) : Bool × World :=
  if c.writeErr path then (true, w)
  else (false, { w with files := w.files ++ [(path, content)] })

/-- Modelled from the spec: `logic.Setting{}.Save(setting)` of the docker
group is not part of the controller source; `save(mapping) -> Ok|Error`
replaces the stored mapping unless it fails.  The controller drops the
error. -/
def saveDocker (c : Collab) (reg : Registry) (w : World) : World :=
  if c.saveErr then w else { w with docker := some reg }

/-! ## The handlers -/

/-- The order `sort.Slice` is called with in `GetList`. -/
def nameLt (a b : Client) : Prop := a.Name < b.Name

instance : DecidableRel nameLt := fun a b => inferInstanceAs (Decidable (a.Name < b.Name))

/-- `Env.GetList`. -/
def GetList (w : World) : Response × World :=
  let result : List Client :=
    match GetValue w with
    | some reg => reg.map Prod.snd
    | none => []
  let currentName :=
    match result.find? (fun item => item.Address == w.Sdk.host) with
    | some item => item.Name
    | none => "local"
  (.listing currentName (result.insertionSort nameLt), w)

/-- The request body of `Env.Create` (`ParamsValidate`). -/
structure CreateParams where
  Name : String
  Title : String
  Address : String
  ServerUrl : String
  TlsCa : String
  TlsCert : String
  TlsKey : String
  EnableTLS : Bool
  EnableComposePath : Bool
  ComposePath : String
deriving DecidableEq, Repr

/-- The loop of `Env.Create` over `certList`: create the directory of each
file and write it; `some e` is the error the request ends with. -/
def writeCerts (c : Collab) (certRootPath : String) :
    List (String × String) → World → Option Failure × World
  | [], w => (none, w)
  | s :: rest, w =>
    let path := filepathJoin [c.storageCertPath, certRootPath, s.1]
    match MkdirAll c (filepathDir path) w with
    | (true, w1) => (some .mkdir, w1)
    | (false, w1) =>
      match WriteFile c path s.2 w1 with
      | (true, w2) => (some .write, w2)
      | (false, w2) => writeCerts c certRootPath rest w2

/-- The tail of `Env.Create` from `docker.NewBuilder` on (lines 152 to 189). -/
def createConnect (c : Collab) (params : CreateParams) (defaultEnv : Bool)
    (client : Client) (options : List DockerOption) (w : World) : Response × World :=
  match NewBuilder c options w with
  | (none, w1) => (.failed .build, w1)
  | (some dockerClient, w1) =>
    match c.info dockerClient 0 with
    | none => (.failed .connect, w1)
    | some _ =>
      let w2 :=
        if defaultEnv then
          if c.containerInfoErr dockerClient then w1
          else { w1 with dpanelInfoSaves := w1.dpanelInfoSaves + 1 }
        else w1
      let client :=
        if defaultEnv then
          match c.info dockerClient 1 with
          | some defaultDockerInfo =>
            { client with DockerInfo := some { Name := defaultDockerInfo.Name,
                                               ID := defaultDockerInfo.ID } }
          | none => client
        else client
      let w3 := UpdateEnv client w2
      if w3.Sdk.Name = params.Name ∧ w3.Sdk.host ≠ params.Address then
        (.success, { (w3.Sdk.Close w3) with Sdk := dockerClient })
      else
        (.success, dockerClient.Close w3)

/-- Lines 83 to 87 of `Env.Create`: the default compose path. -/
def withComposePath (params : CreateParams) : CreateParams :=
  if params.EnableComposePath ∧ params.ComposePath = "" then
    { params with ComposePath := "compose-" ++ params.Name }
  else params

/-- Lines 90 to 102 of `Env.Create`: the registry entry built from the request. -/
def newClient (params : CreateParams) (defaultEnv : Bool) : Client :=
  { Name := params.Name, Title := params.Title, Address := params.Address,
    ServerUrl := params.ServerUrl, TlsCa := params.TlsCa, TlsCert := params.TlsCert,
    TlsKey := params.TlsKey, EnableTLS := params.EnableTLS, Default := defaultEnv,
    EnableComposePath := params.EnableComposePath, ComposePath := params.ComposePath,
    DockerInfo := none }

/-- Lines 104 to 151 of `Env.Create`: with TLS enabled, either pass the three
values on as file references (the CA value ends in `.pem`) or write them to
`ca.pem`, `cert.pem`, `key.pem` and point the entry and the builder at
those files. -/
def provisionTls (c : Collab) (params : CreateParams) (client : Client)
    (options : List DockerOption) (w : World) :
    Except Failure (Client × List DockerOption) × World :=
  if params.EnableTLS then
    if hasSuffix params.TlsCa ".pem" then
      (.ok (client, options ++ [.WithTLS params.TlsCa params.TlsCert params.TlsKey]), w)
    else
      let certList := [("ca.pem", params.TlsCa), ("cert.pem", params.TlsCert),
                       ("key.pem", params.TlsKey)]
      let certRootPath := filepathJoin ["docker", params.Name]
      match writeCerts c certRootPath certList w with
      | (some e, w1) => (.error e, w1)
      | (none, w1) =>
        let client :=
          { client with TlsCa := filepathJoin [certRootPath, "ca.pem"],
                        TlsCert := filepathJoin [certRootPath, "cert.pem"],
                        TlsKey := filepathJoin [certRootPath, "key.pem"] }
        (.ok (client, options ++ [.WithTLS client.TlsCa client.TlsCert client.TlsKey]), w1)
  else (.ok (client, options), w)

/-- `Env.Create`. -/
def Create (c : Collab) (params : CreateParams) (w : World) : Response × World :=
  if params.Name = "" ∨ params.Title = "" ∨ params.Address = "" then
    (.failed .validation, w)
  else if params.EnableTLS ∧
      (params.TlsCa = "" ∨ params.TlsCert = "" ∨ params.TlsKey = "") then
    (.failed .tlsMaterialMissing, w)
  else
    let defaultEnv : Bool := params.Name = "local"
    let options := [DockerOption.WithAddress params.Address, DockerOption.WithName params.Name]
    let params := withComposePath params
    let w := (MkdirAll c (filepathJoin [c.storageLocalPath, params.ComposePath]) w).2
    let client := newClient params defaultEnv
    match provisionTls c params client options w with
    | (.error e, w1) => (.failed e, w1)
    | (.ok (client, options), w1) => createConnect c params defaultEnv client options w1

/-- The options `Env.Switch` builds the candidate from. -/
def switchOptions (row : Client) : List DockerOption :=
  [.WithAddress row.Address, .WithName row.Name] ++
    (if row.EnableTLS then [.WithTLS row.TlsCa row.TlsCert row.TlsKey] else [])

/-- `Env.Switch`. -/
def Switch (c : Collab) (name : String) (w : World) : Response × World :=
  if name = "" then (.failed .validation, w)
  else
    match GetValue w with
    | none => (.failed .settingLoad, w)
    | some reg =>
      match reg.get name with
      | none => (.failed .notFound, w)
      | some row =>
        if w.Sdk.host = row.Address then (.success, w)
        else
          let oldDockerClient := w.Sdk
          match NewBuilder c (switchOptions row) w with
          | (none, w1) => (.failed .build, w1)
          | (some dockerClient, w1) =>
            match c.info dockerClient 0 with
            | none => (.failed .connect, w1)
            | some _ =>
              let w2 := closeClient oldDockerClient (cancelCtx oldDockerClient w1)
              let w3 := { w2 with Sdk := dockerClient }
              let w4 := { w3 with monitorLoops := w3.monitorLoops ++ [w3.Sdk.id] }
              let w5 :=
                if c.saveErr then w4
                else { w4 with diskUsageResets := w4.diskUsageResets + 1 }
              (.success, w5)

/-- The loop of `Env.Delete` over the requested names, working on the copy
`setting` of the registry that `GetValue` returned; `none` when a name is
not in the copy. -/
def deleteLoop : List String → Registry → World → Option Registry × World
  | [], setting, w => (some setting, w)
  | name :: rest, setting, w =>
    match setting.get name with
    | none => (none, w)
    | some row =>
      let w1 :=
        if w.Sdk.host = row.Address then closeClient w.Sdk (cancelCtx w.Sdk w) else w
      deleteLoop rest (setting.delete name) (publish name w1)

/-- `Env.Delete`.  The `required` binding of a list accepts every list that
is present in the request, so there is no validation failure to model. -/
def Delete (c : Collab) (names : List String) (w : World) : Response × World :=
  match GetValue w with
  | none => (.failed .settingLoad, w)
  | some reg =>
    match deleteLoop names reg w with
    | (none, w1) => (.failed .notFound, w1)
    | (some setting, w1) => (.success, saveDocker c setting w1)

/-- `Env.GetDetail`. -/
def GetDetail (c : Collab) (name : String) (w : World) : Response × World :=
  let name := if name = "" then w.Sdk.Name else name
  match GetEnvByName name w with
  | .error e => (.failed e, w)
  | .ok dockerEnv =>
    let dockerEnv :=
      if dockerEnv.ServerUrl = "" then
        match c.urlHost dockerEnv.Address with
        | some host =>
          match stringsCut host ":" with
          | (b, _, true) => { dockerEnv with ServerUrl := b }
          | (_, _, false) => dockerEnv
        | none => dockerEnv
      else dockerEnv
    (.detail dockerEnv, w)

/-! ## Concrete surroundings used in examples -/

/-- Go `getScheme` of `net/url`: the scheme in front of the first colon and
what follows it; an address that does not start with a scheme is returned
whole, and `none` is the error "missing protocol scheme".  `seen` holds the
characters read so far, last one first. -/
def getScheme (raw : List Char) : List Char → List Char → Option (List Char × List Char)
  | _, [] => some ([], raw)
  | seen, ch :: rest =>
    if ch.isAlpha then getScheme raw (ch :: seen) rest
    else if ch.isDigit ∨ ch = '+' ∨ ch = '-' ∨ ch = '.' then
      if seen = [] then some ([], raw) else getScheme raw (ch :: seen) rest
    else if ch = ':' then
      if seen = [] then none else some (seen.reverse, rest)
    else some ([], raw)

/-- The parts before and after the last occurrence of `sep`. -/
def cutLast (sep : Char) : List Char → Option (List Char × List Char)
  | [] => none
  | ch :: rest =>
    match cutLast sep rest with
    | some (b, a) => some (ch :: b, a)
    | none => if ch = sep then some ([], rest) else none

/-- Go `validOptionalPort` of `net/url`: empty, or a colon and digits. -/
def validOptionalPort (port : List Char) : Bool :=
  match port with
  | [] => true
  | ch :: digits => ch == ':' && digits.all Char.isDigit

/-- Go `parseHost` of `net/url`, as far as it accepts or rejects a host: a
bracketed literal needs its closing bracket and then an optional port, any
other host needs digits only after its last colon. -/
def hostAccepted (host : List Char) : Bool :=
  if host.head? = some '[' then
    match cutLast ']' host with
    | none => false
    | some (_, colonPort) => validOptionalPort colonPort
  else
    match cutLast ':' host with
    | none => true
    | some (_, port) => port.all Char.isDigit

/-- The `Host` field Go's `url.Parse` reports for an address, `none` when it
returns an error: fragment and query are cut off, the scheme is read, and
what stands between `//` and the next `/` is the authority, whose host
follows its last `@`.  Not covered: the rejection of control characters, of
invalid percent-escapes and of invalid user info, and the unescaping of the
host. -/
def urlParseHost (address : String) : Option String :=
  match getScheme (address.data.takeWhile (fun ch => ch != '#')) []
      (address.data.takeWhile (fun ch => ch != '#')) with
  | none => none
  | some (scheme, afterScheme) =>
    let rest := afterScheme.takeWhile (fun ch => ch != '?')
    if rest.head? ≠ some '/' then
      if scheme ≠ [] then some ""
      else if ':' ∈ rest.takeWhile (fun ch => ch != '/') then none
      else some ""
    else if (scheme ≠ [] ∨ ¬ ['/', '/', '/'].isPrefixOf rest) ∧ ['/', '/'].isPrefixOf rest then
      let authority := (rest.drop 2).takeWhile (fun ch => ch != '/')
      let host :=
        match cutLast '@' authority with
        | some (_, h) => h
        | none => authority
      if hostAccepted host then some (String.mk host) else none
    else some ""

/-- Surroundings in which every outside call succeeds. -/
def calm : Collab where
  storageLocalPath := "/dpanel/storage"
  storageCertPath := "/dpanel/storage/cert"
  builderErr := fun _ => false
  info := fun b _ => some { Name := b.host, ID := "id" }
  containerInfoErr := fun _ => false
  mkdirErr := fun _ => false
  writeErr := fun _ => false
  saveErr := false
  urlHost := urlParseHost

/-- The handle installed at process start in the examples. -/
def localHandle : Builder :=
  { id := 0, Name := "local", host := "unix:///var/run/docker.sock", tls := none }

/-- A registry entry with the given name and address and nothing else set. -/
def plainEnv (name address : String) : Client :=
  { Name := name, Title := name, Address := address, ServerUrl := "", TlsCa := "",
    TlsCert := "", TlsKey := "", EnableTLS := false, Default := name = "local",
    EnableComposePath := false, ComposePath := "", DockerInfo := none }

/-- A world right after start: the local handle is active and untouched. -/
def startWorld (reg : Registry) : World :=
  { Sdk := localHandle, docker := some reg, nextHandle := 1, cancelled := [],
    closed := [], published := [], monitorLoops := [], diskUsageResets := 0,
    dpanelInfoSaves := 0, dirs := [], files := [] }

/-- Surroundings in which handles can be built but no daemon answers. -/
def silent : Collab := { calm with info := fun _ _ => none }

/-- The registry of the examples: the local daemon and one remote daemon. -/
def twoEnvs : Registry :=
  [("local", plainEnv "local" "unix:///var/run/docker.sock"),
   ("remote", plainEnv "remote" "tcp://10.0.0.5:2376")]

/-- A registry in which two entries name the daemon the active handle talks to. -/
def sharedAddress : Registry :=
  [("local", plainEnv "local" "unix:///var/run/docker.sock"),
   ("mirror", plainEnv "mirror" "unix:///var/run/docker.sock")]

/-- A `Create` request without TLS. -/
def plainCreate (name address : String) : CreateParams :=
  { Name := name, Title := name, Address := address, ServerUrl := "", TlsCa := "",
    TlsCert := "", TlsKey := "", EnableTLS := false, EnableComposePath := false,
    ComposePath := "" }

/-- Two worlds agree on the active slot and on the life-cycle of handles. -/
def SameHandles (w w1 : World) : Prop :=
  w1.Sdk = w.Sdk ∧ w1.nextHandle = w.nextHandle ∧ w1.cancelled = w.cancelled ∧
    w1.closed = w.closed

/-- The three things one `Create` request can do to the handles: fail and
leave the slot alone, succeed and replace the active handle by the
candidate, or succeed and close the candidate. -/
def CreateEffect (p : CreateParams) (w w1 : World) (r : Response) : Prop :=
  (r.isError = true ∧ w1.Sdk = w.Sdk ∧ w1.cancelled = w.cancelled ∧
      w1.closed = w.closed ∧ w.nextHandle ≤ w1.nextHandle) ∨
  (r = .success ∧ w.Sdk.Name = p.Name ∧ w.Sdk.host ≠ p.Address ∧
      w1.Sdk.id = w.nextHandle ∧ w1.Sdk.Name = p.Name ∧ w1.Sdk.host = p.Address ∧
      w1.cancelled = w.cancelled ++ [w.Sdk.id] ∧ w1.closed = w.closed ++ [w.Sdk.id] ∧
      w1.nextHandle = w.nextHandle + 1) ∨
  (r = .success ∧ ¬ (w.Sdk.Name = p.Name ∧ w.Sdk.host ≠ p.Address) ∧
      w1.Sdk = w.Sdk ∧ w1.cancelled = w.cancelled ++ [w.nextHandle] ∧
      w1.closed = w.closed ++ [w.nextHandle] ∧ w1.nextHandle = w.nextHandle + 1)

/-- The active handle is live: its cancel function has not been called and
its transport has not been closed. -/
def Live (w : World) : Prop :=
  w.Sdk.id ∉ w.cancelled ∧ w.Sdk.id ∉ w.closed

instance (w : World) : Decidable (Live w) :=
  inferInstanceAs (Decidable (w.Sdk.id ∉ w.cancelled ∧ w.Sdk.id ∉ w.closed))

/-- Handle identities are handed out in increasing order: every handle that
exists is older than the next one to be built. -/
def Fresh (w : World) : Prop :=
  w.Sdk.id < w.nextHandle ∧ (∀ i ∈ w.cancelled, i < w.nextHandle) ∧
    (∀ i ∈ w.closed, i < w.nextHandle)

instance (w : World) : Decidable (Fresh w) :=
  inferInstanceAs (Decidable (w.Sdk.id < w.nextHandle ∧
    (∀ i ∈ w.cancelled, i < w.nextHandle) ∧ (∀ i ∈ w.closed, i < w.nextHandle)))

/-- Does the loop of `Delete`, run over these names on this copy of the
registry, come to an entry registered at `host` before it ends or aborts. -/
def touchesActive (host : String) : List String → Registry → Bool
  | [], _ => false
  | name :: rest, setting =>
    match setting.get name with
    | none => false
    | some row =>
      decide (host = row.Address) || touchesActive host rest (setting.delete name)

/-- A request to one of the three handlers that change the state, with the
surroundings it runs in. -/
inductive Request where
  | create (c : Collab) (params : CreateParams)
  | switch (c : Collab) (name : String)
  | delete (c : Collab) (names : List String)

/-- The world after a request. -/
def Request.apply : Request → World → World
  | .create c params, w => (Create c params w).2
  | .switch c name, w => (Switch c name w).2
  | .delete c names, w => (Delete c names w).2

/-- Is the request a `Delete` whose loop comes to an entry registered at the
address of the active handle. -/
def Request.deletesActive : Request → World → Bool
  | .delete _ names, w =>
    match GetValue w with
    | none => false
    | some reg => touchesActive w.Sdk.host names reg
  | _, _ => false

/-- One request on a world that carries a mark: has a `Delete` come to an
entry at the address of the active handle since that handle was installed.
The mark is dropped when another handle is installed. -/
def track (r : Request) (s : World × Bool) : World × Bool :=
  (r.apply s.1,
    if (r.apply s.1).Sdk.id = s.1.Sdk.id then s.2 || r.deletesActive s.1 else false)

/-- A sequence of requests, first one first. -/
def run (reqs : List Request) (s : World × Bool) : World × Bool :=
  reqs.foldl (fun s r => track r s) s

/-- The active handle is retired: cancelled and closed. -/
def Retired (w : World) : Prop :=
  w.Sdk.id ∈ w.cancelled ∧ w.Sdk.id ∈ w.closed

instance (w : World) : Decidable (Retired w) :=
  inferInstanceAs (Decidable (w.Sdk.id ∈ w.cancelled ∧ w.Sdk.id ∈ w.closed))

/-- The mark tells whether the active handle is live or retired, and handle
identities are fresh. -/
def Tracked (s : World × Bool) : Prop :=
  Fresh s.1 ∧ (s.2 = false → Live s.1) ∧ (s.2 = true → Retired s.1)

/-- The `Create` request of the specification's example. -/
def stagingCreate : CreateParams :=
  { Name := "staging", Title := "Staging", Address := "tcp://10.0.0.5:2376", ServerUrl := "",
    TlsCa := "<CA PEM>", TlsCert := "<CERT PEM>", TlsKey := "<KEY PEM>", EnableTLS := true,
    EnableComposePath := false, ComposePath := "" }

/-- The three credential files `Create` writes for a request: path under the
certificate storage root and content. -/
def certFiles (c : Collab) (p : CreateParams) : List (String × String) :=
  [(filepathJoin [c.storageCertPath, filepathJoin ["docker", p.Name], "ca.pem"], p.TlsCa),
   (filepathJoin [c.storageCertPath, filepathJoin ["docker", p.Name], "cert.pem"], p.TlsCert),
   (filepathJoin [c.storageCertPath, filepathJoin ["docker", p.Name], "key.pem"], p.TlsKey)]

/-- The credential directory of an environment: `docker/<name>` under the
certificate storage root. -/
def credentialDir (c : Collab) (name : String) : String :=
  filepathJoin [c.storageCertPath, "docker", name]

/-- The request of the example under a name that is not a plain path element. -/
def escapingCreate : CreateParams :=
  { stagingCreate with Name := "../x" }

/-- The options `Create` builds the candidate from after writing the files. -/
def certOptions (p : CreateParams) : List DockerOption :=
  [.WithAddress p.Address, .WithName p.Name,
   .WithTLS (filepathJoin [filepathJoin ["docker", p.Name], "ca.pem"])
     (filepathJoin [filepathJoin ["docker", p.Name], "cert.pem"])
     (filepathJoin [filepathJoin ["docker", p.Name], "key.pem"])]

/-! ## Joining plain path elements -/

theorem splitSlash_cons_exists (l : List Char) : ∃ h t, splitSlash l = h :: t := by
  cases l with
  | nil => exact ⟨[], [], rfl⟩
  | cons c cs =>
    simp only [splitSlash]
    cases splitSlash cs with
    | nil => exact ⟨_, _, rfl⟩
    | cons h t =>
      by_cases hc : c = '/'
      · exact ⟨[], h :: t, by simp [hc]⟩
      · exact ⟨c :: h, t, by simp [hc]⟩

theorem splitSlash_plain (x : List Char) (h : '/' ∉ x) : splitSlash x = [x] := by
  induction x with
  | nil => rfl
  | cons c cs ih =>
    have h1 : c ≠ '/' := fun e => h (e ▸ List.mem_cons_self _ _)
    have h2 : '/' ∉ cs := fun e => h (List.mem_cons_of_mem _ e)
    simp [splitSlash, ih h2, h1]

theorem splitSlash_append (a b : List Char) :
    splitSlash (a ++ '/' :: b) = splitSlash a ++ splitSlash b := by
  induction a with
  | nil =>
    obtain ⟨h, t, hb⟩ := splitSlash_cons_exists b
    simp [splitSlash, hb]
  | cons c cs ih =>
    obtain ⟨h, t, ha⟩ := splitSlash_cons_exists cs
    rw [List.cons_append]
    simp only [splitSlash, ih, ha, List.cons_append]
    by_cases hc : c = '/' <;> simp [hc]

theorem cleanStep_plain (rooted : Bool) (stack : List (List Char)) (x : List Char)
    (h : PlainElement x) : cleanStep rooted stack x = x :: stack := by
  obtain ⟨h1, _, h3, h4⟩ := h
  simp [cleanStep, h1, h3, h4]

theorem cleanStack_snoc (pre x : List Char) (hp : pre ≠ []) (h : PlainElement x) :
    cleanStack (pre ++ '/' :: x) = x :: cleanStack pre := by
  have hh : (pre ++ '/' :: x).head? = pre.head? := by
    cases pre with
    | nil => exact absurd rfl hp
    | cons c cs => rfl
  unfold cleanStack
  rw [hh, splitSlash_append, splitSlash_plain x h.2.1, List.foldl_append]
  simp only [List.foldl_cons, List.foldl_nil]
  exact cleanStep_plain _ _ x h

theorem cleanStack_plain (x : List Char) (h : PlainElement x) : cleanStack x = [x] := by
  unfold cleanStack
  rw [splitSlash_plain x h.2.1]
  simp only [List.foldl_cons, List.foldl_nil]
  exact cleanStep_plain _ _ x h

theorem intercalate_pair (sep a : List Char) (b : List Char) (t : List (List Char)) :
    List.intercalate sep (a :: b :: t) = a ++ sep ++ List.intercalate sep (b :: t) := by
  simp [List.intercalate]

theorem intercalate_snoc (sep : List Char) (xs : List (List Char)) (x : List Char)
    (h : xs ≠ []) :
    List.intercalate sep (xs ++ [x]) = List.intercalate sep xs ++ sep ++ x := by
  induction xs with
  | nil => exact absurd rfl h
  | cons a t ih =>
    cases t with
    | nil => simp [List.intercalate]
    | cons b t2 =>
      have := ih (List.cons_ne_nil _ _)
      rw [List.cons_append, List.cons_append, intercalate_pair, ← List.cons_append, this,
        intercalate_pair]
      simp [List.append_assoc]

theorem intercalate_ne_nil (sep a : List Char) (t : List (List Char)) (h : a ≠ []) :
    List.intercalate sep (a :: t) ≠ [] := by
  cases t with
  | nil => simpa [List.intercalate] using h
  | cons b t2 =>
    rw [intercalate_pair]
    simp [h]

theorem cleanChars_snoc (pre x top : List Char) (rest : List (List Char)) (hp : pre ≠ [])
    (hx : PlainElement x) (hs : cleanStack pre = top :: rest) (ht : top ≠ []) :
    cleanChars (pre ++ '/' :: x) = cleanChars pre ++ '/' :: x := by
  have hh : (pre ++ '/' :: x).head? = pre.head? := by
    cases pre with
    | nil => exact absurd rfl hp
    | cons c cs => rfl
  have hbody : List.intercalate ['/'] (top :: rest).reverse ≠ [] := by
    rw [List.reverse_cons]
    cases hr : rest.reverse with
    | nil => simpa [List.intercalate] using ht
    | cons a t =>
      rw [intercalate_snoc _ _ _ (List.cons_ne_nil _ _)]
      simp [ht]
  have hbody2 : List.intercalate ['/'] (x :: top :: rest).reverse =
      List.intercalate ['/'] (top :: rest).reverse ++ '/' :: x := by
    rw [List.reverse_cons (a := x), intercalate_snoc _ _ _ (by simp)]
    simp
  unfold cleanChars
  rw [cleanStack_snoc pre x hp hx, hh, hs]
  simp only [hbody2]
  have hbody3 := hbody
  simp only [List.reverse_cons] at hbody3
  by_cases hr : pre.head? = some '/'
  · simp [hr]
  · simp [hr, hbody3]

theorem dropWhile_append_plain (E : List (List Char)) (d : List Char)
    (S : List (List Char)) (hd : d ≠ []) :
    (E ++ d :: S).dropWhile (fun e => e.isEmpty) =
      E.dropWhile (fun e => e.isEmpty) ++ d :: S := by
  induction E with
  | nil =>
    have : d.isEmpty = false := by cases d with
      | nil => exact absurd rfl hd
      | cons _ _ => rfl
    simp [List.dropWhile, this]
  | cons e E ih =>
    by_cases he : e.isEmpty = true
    · simp only [List.cons_append, List.dropWhile_cons, he, if_true]
      exact ih
    · simp only [List.cons_append, List.dropWhile_cons, he]
      simp

theorem dropWhile_head_ne_nil (E : List (List Char)) (a : List Char)
    (t : List (List Char)) (h : E.dropWhile (fun e => e.isEmpty) = a :: t) : a ≠ [] := by
  intro ha
  have := List.head_dropWhile_not (fun e : List Char => e.isEmpty) E
    (by rw [h]; exact List.cons_ne_nil _ _)
  simp [h, ha] at this

theorem joinChars_eq (E L : List (List Char))
    (h : E.dropWhile (fun e => e.isEmpty) = L) (hL : L ≠ []) :
    joinChars E = cleanChars (List.intercalate ['/'] L) := by
  unfold joinChars
  rw [h]
  cases L with
  | nil => exact absurd rfl hL
  | cons a t => rfl

/-- Joining one more plain element onto a path that ends in a plain element
appends `/` and that element. -/
theorem joinChars_snoc (E : List (List Char)) (d x : List Char) (hd : PlainElement d)
    (hx : PlainElement x) :
    joinChars (E ++ [d, x]) = joinChars (E ++ [d]) ++ '/' :: x := by
  have e1 := dropWhile_append_plain E d [x] hd.1
  have e2 := dropWhile_append_plain E d [] hd.1
  rw [joinChars_eq _ _ e1 (by simp), joinChars_eq _ _ e2 (by simp)]
  cases hL : E.dropWhile (fun e => e.isEmpty) with
  | nil =>
    have h1 : List.intercalate ['/'] ([] ++ [d, x]) = d ++ '/' :: x := by
      simp [List.intercalate]
    have h2 : List.intercalate ['/'] ([] ++ [d]) = d := by simp [List.intercalate]
    rw [h1, h2]
    exact cleanChars_snoc d x d [] hd.1 hx (cleanStack_plain d hd) hd.1
  | cons a t =>
    have ha := dropWhile_head_ne_nil E a t hL
    have hpre := intercalate_ne_nil ['/'] a t ha
    have h2 : List.intercalate ['/'] (a :: t ++ [d]) =
        List.intercalate ['/'] (a :: t) ++ '/' :: d := by
      rw [intercalate_snoc _ _ _ (List.cons_ne_nil _ _)]; simp
    have h1 : List.intercalate ['/'] (a :: t ++ [d, x]) =
        (List.intercalate ['/'] (a :: t) ++ '/' :: d) ++ '/' :: x := by
      have : a :: t ++ [d, x] = (a :: t ++ [d]) ++ [x] := by simp
      rw [this, intercalate_snoc _ _ _ (by simp), h2]; simp
    rw [h1, h2]
    exact cleanChars_snoc _ x d _ (by simp) hx
      (cleanStack_snoc _ d hpre hd) hd.1

theorem intercalate_merge (A B : List (List Char)) (u v : List Char) :
    List.intercalate ['/'] (A ++ (u ++ '/' :: v) :: B) =
      List.intercalate ['/'] (A ++ u :: v :: B) := by
  induction A with
  | nil =>
    cases B with
    | nil => simp [List.intercalate]
    | cons b B2 =>
      rw [List.nil_append, List.nil_append, intercalate_pair, intercalate_pair,
        intercalate_pair]
      simp [List.append_assoc]
  | cons a A ih =>
    cases A with
    | nil =>
      rw [List.cons_append, List.cons_append, List.nil_append, List.nil_append,
        intercalate_pair, intercalate_pair]
      have := ih
      rw [List.nil_append, List.nil_append] at this
      rw [this]
    | cons a2 A2 =>
      rw [List.cons_append, List.cons_append, List.cons_append, List.cons_append,
        intercalate_pair, intercalate_pair]
      have := ih
      rw [List.cons_append, List.cons_append] at this
      rw [this]

/-- An element written as `u/v` joins like the two elements `u` and `v`. -/
theorem joinChars_merge (E B : List (List Char)) (u v : List Char) (hu : u ≠ []) :
    joinChars (E ++ (u ++ '/' :: v) :: B) = joinChars (E ++ u :: v :: B) := by
  have e1 := dropWhile_append_plain E (u ++ '/' :: v) B (by simp)
  have e2 := dropWhile_append_plain E u (v :: B) hu
  unfold joinChars
  rw [e1, e2]
  cases hL : E.dropWhile (fun e => e.isEmpty) with
  | nil =>
    simp only [List.nil_append]
    exact congrArg cleanChars (intercalate_merge [] B u v)
  | cons a t =>
    simp only [List.cons_append]
    exact congrArg cleanChars (intercalate_merge (a :: t) B u v)

theorem joinChars_docker (n : List Char) (hn : PlainElement n) :
    joinChars ["docker".data, n] = "docker/".data ++ n := by
  have h := joinChars_snoc [] "docker".data n (by decide) hn
  have h0 : joinChars ([] ++ ["docker".data]) = "docker".data := by decide
  rw [h0] at h
  exact h

theorem filepathJoin_docker (name : String) (hn : PlainElement name.data) :
    filepathJoin ["docker", name] = "docker/" ++ name :=
  String.ext (joinChars_docker name.data hn)

theorem filepathJoin_stored (name file : String) (hn : PlainElement name.data)
    (hf : PlainElement file.data) :
    filepathJoin [filepathJoin ["docker", name], file] = "docker/" ++ name ++ "/" ++ file := by
  apply String.ext
  show joinChars [joinChars ["docker".data, name.data], file.data] = _
  have h1 : joinChars ["docker".data ++ '/' :: name.data, file.data] =
      joinChars ["docker".data, name.data, file.data] :=
    joinChars_merge [] [file.data] "docker".data name.data (by decide)
  have h2 : joinChars ["docker".data, name.data, file.data] =
      joinChars ["docker".data, name.data] ++ '/' :: file.data :=
    joinChars_snoc ["docker".data] name.data file.data hn hf
  have h3 : "docker/".data ++ name.data = "docker".data ++ '/' :: name.data := rfl
  rw [joinChars_docker name.data hn, h3, h1, h2, joinChars_docker name.data hn]
  simp [String.data_append]

theorem filepathJoin_written (root name file : String) (hn : PlainElement name.data)
    (hf : PlainElement file.data) :
    filepathJoin [root, filepathJoin ["docker", name], file] =
      filepathJoin [root, "docker", name] ++ "/" ++ file := by
  apply String.ext
  show joinChars [root.data, joinChars ["docker".data, name.data], file.data] =
    joinChars [root.data, "docker".data, name.data] ++ "/".data ++ file.data
  have h1 : joinChars [root.data, "docker".data ++ '/' :: name.data, file.data] =
      joinChars [root.data, "docker".data, name.data, file.data] :=
    joinChars_merge [root.data] [file.data] "docker".data name.data (by decide)
  have h2 : joinChars [root.data, "docker".data, name.data, file.data] =
      joinChars [root.data, "docker".data, name.data] ++ '/' :: file.data :=
    joinChars_snoc [root.data, "docker".data] name.data file.data hn hf
  have h3 : "docker/".data ++ name.data = "docker".data ++ '/' :: name.data := rfl
  have h4 : "/".data = ['/'] := rfl
  rw [joinChars_docker name.data hn, h3, h1, h2, h4]
  simp

theorem filepathJoin_credentialDir (root name : String) (hn : PlainElement name.data) :
    filepathJoin [root, "docker", name] = filepathJoin [root, "docker"] ++ "/" ++ name := by
  apply String.ext
  show joinChars [root.data, "docker".data, name.data] =
    joinChars [root.data, "docker".data] ++ "/".data ++ name.data
  have h2 : joinChars [root.data, "docker".data, name.data] =
      joinChars [root.data, "docker".data] ++ '/' :: name.data :=
    joinChars_snoc [root.data] "docker".data name.data (by decide) hn
  have h4 : "/".data = ['/'] := rfl
  rw [h2, h4]
  simp

theorem filepathJoin_resolved (root name file : String) (hn : PlainElement name.data)
    (hf : PlainElement file.data) :
    filepathJoin [root, "docker/" ++ name ++ "/" ++ file] =
      filepathJoin [root, "docker", name] ++ "/" ++ file := by
  apply String.ext
  show joinChars [root.data, (("docker/".data ++ name.data) ++ "/".data) ++ file.data] =
    joinChars [root.data, "docker".data, name.data] ++ "/".data ++ file.data
  have h0 : (("docker/".data ++ name.data) ++ "/".data) ++ file.data =
      "docker".data ++ '/' :: (name.data ++ '/' :: file.data) := by
    have h5 : "docker/".data = "docker".data ++ ['/'] := rfl
    have h4 : "/".data = ['/'] := rfl
    rw [h5, h4]
    simp only [List.append_assoc, List.singleton_append, List.cons_append, List.nil_append]
  have h1 : joinChars [root.data, "docker".data ++ '/' :: (name.data ++ '/' :: file.data)] =
      joinChars [root.data, "docker".data, name.data ++ '/' :: file.data] :=
    joinChars_merge [root.data] [] "docker".data (name.data ++ '/' :: file.data) (by decide)
  have h2 : joinChars [root.data, "docker".data, name.data ++ '/' :: file.data] =
      joinChars [root.data, "docker".data, name.data, file.data] :=
    joinChars_merge [root.data, "docker".data] [] name.data file.data hn.1
  have h3 : joinChars [root.data, "docker".data, name.data, file.data] =
      joinChars [root.data, "docker".data, name.data] ++ '/' :: file.data :=
    joinChars_snoc [root.data, "docker".data] name.data file.data hn hf
  have h4 : "/".data = ['/'] := rfl
  rw [h0, h1, h2, h3, h4]
  simp

/-! ## Cutting a host at its first colon -/

theorem cutChars_colon_none (l : List Char) (h : ':' ∉ l) : cutChars [':'] l = none := by
  induction l with
  | nil => simp [cutChars]
  | cons ch cs ih =>
    have h1 : ':' ≠ ch := fun e => h (e ▸ List.mem_cons_self _ _)
    have h2 : ':' ∉ cs := fun e => h (List.mem_cons_of_mem _ e)
    simp [cutChars, List.isPrefixOf, h1, ih h2]

theorem cutChars_colon_split (h port : List Char) (hh : ':' ∉ h) :
    cutChars [':'] (h ++ ':' :: port) = some (h, port) := by
  induction h with
  | nil => simp [cutChars, List.isPrefixOf]
  | cons ch cs ih =>
    have h1 : ':' ≠ ch := fun e => hh (e ▸ List.mem_cons_self _ _)
    have h2 : ':' ∉ cs := fun e => hh (List.mem_cons_of_mem _ e)
    simp [cutChars, List.isPrefixOf, h1, ih h2]

/-! ## Registry lemmas -/

theorem Registry.get_delete_of_ne (m : Registry) {n k : String} (h : n ≠ k) :
    (m.delete k).get n = m.get n := by
  induction m with
  | nil => rfl
  | cons e m ih =>
    obtain ⟨key, v⟩ := e
    simp only [Registry.delete, Registry.get] at ih ⊢
    by_cases hk : key = k
    · have h1 : (key != k) = false := by rw [hk]; exact bne_self_eq_false k
      have h2 : (n == key) = false := by rw [hk]; exact beq_false_of_ne h
      rw [List.filter_cons, List.lookup_cons, h2]
      simp only [h1]
      exact ih
    · have h1 : (key != k) = true := bne_iff_ne.mpr hk
      rw [List.filter_cons]
      simp only [h1, if_true, List.lookup_cons]
      rw [ih]

theorem Registry.get_delete_none (m : Registry) {n : String} (k : String)
    (h : m.get n = none) : (m.delete k).get n = none := by
  by_cases hk : n = k
  · subst hk
    unfold Registry.delete Registry.get
    rw [List.lookup_eq_none_iff]
    intro e he
    have hne : e.1 ≠ n := bne_iff_ne.mp (List.mem_filter.mp he).2
    exact bne_iff_ne.mpr (Ne.symm hne)
  · rw [Registry.get_delete_of_ne m hk]; exact h

theorem Registry.get_delete_self (m : Registry) (k : String) :
    (m.delete k).get k = none := by
  unfold Registry.delete Registry.get
  rw [List.lookup_eq_none_iff]
  intro e he
  have hne : e.1 ≠ k := bne_iff_ne.mp (List.mem_filter.mp he).2
  exact bne_iff_ne.mpr (Ne.symm hne)

theorem Registry.get_of_get_delete (m : Registry) {n k : String} {row : Client}
    (h : (m.delete k).get n = some row) : n ≠ k ∧ m.get n = some row := by
  by_cases hk : n = k
  · subst hk
    rw [Registry.get_delete_self] at h
    cases h
  · exact ⟨hk, by rw [← Registry.get_delete_of_ne m hk]; exact h⟩

/-! ## The loop of `Delete` -/

theorem deleteLoop_docker (names : List String) (setting : Registry) (w : World) :
    (deleteLoop names setting w).2.docker = w.docker := by
  induction names generalizing setting w with
  | nil => rfl
  | cons name rest ih =>
    unfold deleteLoop
    cases hrow : setting.get name with
    | none => rfl
    | some row =>
      simp only
      rw [ih]
      by_cases hh : w.Sdk.host = row.Address <;> simp [hh, publish, closeClient, cancelCtx]

theorem deleteLoop_Sdk (names : List String) (setting : Registry) (w : World) :
    (deleteLoop names setting w).2.Sdk = w.Sdk := by
  induction names generalizing setting w with
  | nil => rfl
  | cons name rest ih =>
    unfold deleteLoop
    cases hrow : setting.get name with
    | none => rfl
    | some row =>
      simp only
      rw [ih]
      by_cases hh : w.Sdk.host = row.Address <;> simp [hh, publish, closeClient, cancelCtx]

theorem deleteLoop_none_of_missing (names : List String) (setting : Registry) (w : World)
    (h : ∃ n ∈ names, setting.get n = none) : (deleteLoop names setting w).1 = none := by
  induction names generalizing setting w with
  | nil => obtain ⟨n, hn, _⟩ := h; simp at hn
  | cons name rest ih =>
    unfold deleteLoop
    cases hrow : setting.get name with
    | none => rfl
    | some row =>
      simp only
      apply ih
      obtain ⟨n, hn, hnone⟩ := h
      rcases List.mem_cons.mp hn with rfl | hn
      · rw [hrow] at hnone; cases hnone
      · exact ⟨n, hn, Registry.get_delete_none setting name hnone⟩

theorem deleteLoop_cancelled_mono (names : List String) (setting : Registry) (w : World)
    (i : Nat) (h : i ∈ w.cancelled) : i ∈ (deleteLoop names setting w).2.cancelled := by
  induction names generalizing setting w with
  | nil => exact h
  | cons name rest ih =>
    unfold deleteLoop
    cases hrow : setting.get name with
    | none => exact h
    | some row =>
      simp only
      apply ih
      by_cases hh : w.Sdk.host = row.Address <;>
        simp [hh, publish, closeClient, cancelCtx, h]

theorem deleteLoop_closed_mono (names : List String) (setting : Registry) (w : World)
    (i : Nat) (h : i ∈ w.closed) : i ∈ (deleteLoop names setting w).2.closed := by
  induction names generalizing setting w with
  | nil => exact h
  | cons name rest ih =>
    unfold deleteLoop
    cases hrow : setting.get name with
    | none => exact h
    | some row =>
      simp only
      apply ih
      by_cases hh : w.Sdk.host = row.Address <;>
        simp [hh, publish, closeClient, cancelCtx, h]

/-- A loop that comes to an entry at the active address has cancelled and
closed the active handle. -/
theorem deleteLoop_touched (names : List String) (setting : Registry) (w : World)
    (h : touchesActive w.Sdk.host names setting = true) :
    w.Sdk.id ∈ (deleteLoop names setting w).2.cancelled ∧
    w.Sdk.id ∈ (deleteLoop names setting w).2.closed := by
  induction names generalizing setting w with
  | nil => simp [touchesActive] at h
  | cons name rest ih =>
    unfold touchesActive at h
    unfold deleteLoop
    cases hr : setting.get name with
    | none => rw [hr] at h; simp at h
    | some r =>
      rw [hr] at h
      simp only at h ⊢
      by_cases hh : w.Sdk.host = r.Address
      · rw [if_pos hh]
        constructor
        · apply deleteLoop_cancelled_mono
          simp [publish, closeClient, cancelCtx]
        · apply deleteLoop_closed_mono
          simp [publish, closeClient, cancelCtx]
      · rw [if_neg hh]
        have h2 : touchesActive w.Sdk.host rest (setting.delete name) = true := by
          simpa [hh] using h
        exact ih (setting.delete name) (publish name w) h2

/-- A loop that comes to no entry at the active address cancels and closes
nothing. -/
theorem deleteLoop_untouched (names : List String) (setting : Registry) (w : World)
    (h : touchesActive w.Sdk.host names setting = false) :
    (deleteLoop names setting w).2.cancelled = w.cancelled ∧
    (deleteLoop names setting w).2.closed = w.closed := by
  induction names generalizing setting w with
  | nil => exact ⟨rfl, rfl⟩
  | cons name rest ih =>
    unfold touchesActive at h
    unfold deleteLoop
    cases hr : setting.get name with
    | none => exact ⟨rfl, rfl⟩
    | some r =>
      rw [hr] at h
      simp only [Bool.or_eq_false_iff, decide_eq_false_iff_not] at h
      simp only
      rw [if_neg h.1]
      exact ih (setting.delete name) (publish name w) h.2

/-- The loop cancels and closes no handle but the active one, and builds none. -/
theorem deleteLoop_only_active (names : List String) (setting : Registry) (w : World) :
    (∀ i ∈ (deleteLoop names setting w).2.cancelled, i ∈ w.cancelled ∨ i = w.Sdk.id) ∧
    (∀ i ∈ (deleteLoop names setting w).2.closed, i ∈ w.closed ∨ i = w.Sdk.id) ∧
    (deleteLoop names setting w).2.nextHandle = w.nextHandle := by
  induction names generalizing setting w with
  | nil => exact ⟨fun i hi => Or.inl hi, fun i hi => Or.inl hi, rfl⟩
  | cons name rest ih =>
    unfold deleteLoop
    cases hr : setting.get name with
    | none => exact ⟨fun i hi => Or.inl hi, fun i hi => Or.inl hi, rfl⟩
    | some r =>
      simp only
      by_cases hh : w.Sdk.host = r.Address
      · rw [if_pos hh]
        obtain ⟨a, b, d⟩ := ih (setting.delete name)
          (publish name (closeClient w.Sdk (cancelCtx w.Sdk w)))
        refine ⟨fun i hi => ?_, fun i hi => ?_, d⟩
        · rcases a i hi with h | h
          · simpa [publish, closeClient, cancelCtx] using h
          · exact Or.inr h
        · rcases b i hi with h | h
          · simpa [publish, closeClient, cancelCtx] using h
          · exact Or.inr h
      · rw [if_neg hh]
        exact ih (setting.delete name) (publish name w)

/-! ## The steps of `Create` -/

theorem SameHandles.refl (w : World) : SameHandles w w := ⟨rfl, rfl, rfl, rfl⟩

theorem MkdirAll_sameHandles (c : Collab) (path : String) (w : World) :
    SameHandles w (MkdirAll c path w).2 := by
  unfold MkdirAll SameHandles
  by_cases h : c.mkdirErr path = true <;> simp [h]

theorem WriteFile_sameHandles (c : Collab) (path content : String) (w : World) :
    SameHandles w (WriteFile c path content w).2 := by
  unfold WriteFile SameHandles
  by_cases h : c.writeErr path = true <;> simp [h]

theorem SameHandles.trans {w w1 w2 : World} (h1 : SameHandles w w1)
    (h2 : SameHandles w1 w2) : SameHandles w w2 := by
  obtain ⟨a1, b1, c1, d1⟩ := h1
  obtain ⟨a2, b2, c2, d2⟩ := h2
  exact ⟨a2.trans a1, b2.trans b1, c2.trans c1, d2.trans d1⟩

theorem writeCerts_sameHandles (c : Collab) (root : String)
    (certs : List (String × String)) (w : World) :
    SameHandles w (writeCerts c root certs w).2 := by
  induction certs generalizing w with
  | nil => exact SameHandles.refl w
  | cons s rest ih =>
    unfold writeCerts
    simp only
    have hm := MkdirAll_sameHandles c
      (filepathDir (filepathJoin [c.storageCertPath, root, s.1])) w
    cases hmk : MkdirAll c (filepathDir (filepathJoin [c.storageCertPath, root, s.1])) w with
    | mk e1 w1 =>
      rw [hmk] at hm
      cases e1 with
      | true => exact hm
      | false =>
        simp only
        have hw := WriteFile_sameHandles c (filepathJoin [c.storageCertPath, root, s.1]) s.2 w1
        cases hwr : WriteFile c (filepathJoin [c.storageCertPath, root, s.1]) s.2 w1 with
        | mk e2 w2 =>
          rw [hwr] at hw
          cases e2 with
          | true => exact hm.trans hw
          | false => exact (hm.trans hw).trans (ih w2)

theorem applyOptions_foldl_id (options : List DockerOption) (b : Builder) :
    (options.foldl
      (fun b o =>
        match o with
        | .WithAddress a => { b with host := a }
        | .WithName n => { b with Name := n }
        | .WithTLS ca cert key => { b with tls := some (ca, cert, key) }) b).id = b.id := by
  induction options generalizing b with
  | nil => rfl
  | cons o rest ih =>
    rw [List.foldl_cons, ih]
    cases o <;> rfl

theorem applyOptions_id (options : List DockerOption) (id : Nat) :
    (applyOptions options id).id = id :=
  applyOptions_foldl_id options _

theorem CreateEffect.of_sameHandles {p : CreateParams} {w w1 w2 : World} {r : Response}
    (h : SameHandles w w1) (he : CreateEffect p w1 w2 r) : CreateEffect p w w2 r := by
  obtain ⟨a, b, c, d⟩ := h
  unfold CreateEffect at *
  rw [a, b, c, d] at he
  exact he

theorem createConnect_effect (c : Collab) (p : CreateParams) (d : Bool) (client : Client)
    (options : List DockerOption) (w : World)
    (hn : (applyOptions options w.nextHandle).Name = p.Name)
    (hh : (applyOptions options w.nextHandle).host = p.Address) :
    CreateEffect p w (createConnect c p d client options w).2
      (createConnect c p d client options w).1 := by
  unfold CreateEffect
  by_cases hb : c.builderErr options = true
  · left; simp [createConnect, NewBuilder, hb, Response.isError]
  · cases hi : c.info (applyOptions options w.nextHandle) 0 with
    | none => left; simp [createConnect, NewBuilder, hb, hi, Response.isError]
    | some i =>
      by_cases hs : w.Sdk.Name = p.Name ∧ w.Sdk.host ≠ p.Address
      · right; left
        cases d <;> by_cases hc : c.containerInfoErr (applyOptions options w.nextHandle) = true <;>
          simp [createConnect, NewBuilder, hb, hi, hc, UpdateEnv, hs, Builder.Close,
            closeClient, cancelCtx, applyOptions_id, hn, hh]
      · right; right
        have hs2 : w.Sdk.Name = p.Name → w.Sdk.host = p.Address := fun h1 =>
          by_contra fun h2 => hs ⟨h1, h2⟩
        have hs3 : ¬ (w.Sdk.Name = p.Name ∧ ¬ w.Sdk.host = p.Address) := hs
        cases d <;> by_cases hc : c.containerInfoErr (applyOptions options w.nextHandle) = true <;>
          simp [createConnect, NewBuilder, hb, hi, hc, UpdateEnv, if_neg hs3, Builder.Close,
            closeClient, cancelCtx, applyOptions_id] <;> exact hs2

theorem provisionTls_sameHandles (c : Collab) (p : CreateParams) (client : Client)
    (options : List DockerOption) (w : World) :
    SameHandles w (provisionTls c p client options w).2 := by
  unfold provisionTls
  by_cases ht : p.EnableTLS = true
  · by_cases hs : hasSuffix p.TlsCa ".pem" = true
    · simp only [ht, hs, if_true]; exact SameHandles.refl w
    · simp only [ht, hs, if_true]
      have h := writeCerts_sameHandles c (filepathJoin ["docker", p.Name])
        [("ca.pem", p.TlsCa), ("cert.pem", p.TlsCert), ("key.pem", p.TlsKey)] w
      cases hw : writeCerts c (filepathJoin ["docker", p.Name])
        [("ca.pem", p.TlsCa), ("cert.pem", p.TlsCert), ("key.pem", p.TlsKey)] w with
      | mk e w1 =>
        rw [hw] at h
        cases e <;> exact h
  · simp only [ht]; exact SameHandles.refl w

theorem provisionTls_options (c : Collab) (p : CreateParams) (client client1 : Client)
    (options options1 : List DockerOption) (w : World)
    (h : (provisionTls c p client options w).1 = .ok (client1, options1)) :
    options1 = options ∨ ∃ ca cert key, options1 = options ++ [.WithTLS ca cert key] := by
  unfold provisionTls at h
  by_cases ht : p.EnableTLS = true
  · by_cases hs : hasSuffix p.TlsCa ".pem" = true
    · simp only [ht, hs, if_true] at h
      injection h with h
      injection h with _ h2
      exact Or.inr ⟨_, _, _, h2.symm⟩
    · simp only [ht, hs, if_true] at h
      cases hw : writeCerts c (filepathJoin ["docker", p.Name])
        [("ca.pem", p.TlsCa), ("cert.pem", p.TlsCert), ("key.pem", p.TlsKey)] w with
      | mk e w1 =>
        rw [hw] at h
        cases e with
        | some e => cases h
        | none =>
          injection h with h
          injection h with _ h2
          exact Or.inr ⟨_, _, _, h2.symm⟩
  · simp only [ht] at h
    injection h with h
    injection h with _ h2
    exact Or.inl h2.symm

theorem applyOptions_base (address name : String) (extra : List DockerOption) (id : Nat)
    (h : extra = [] ∨ ∃ ca cert key, extra = [.WithTLS ca cert key]) :
    (applyOptions ([.WithAddress address, .WithName name] ++ extra) id).Name = name ∧
    (applyOptions ([.WithAddress address, .WithName name] ++ extra) id).host = address := by
  rcases h with rfl | ⟨ca, cert, key, rfl⟩ <;> exact ⟨rfl, rfl⟩

theorem withComposePath_Name (p : CreateParams) : (withComposePath p).Name = p.Name := by
  unfold withComposePath; split <;> rfl

theorem withComposePath_Address (p : CreateParams) :
    (withComposePath p).Address = p.Address := by
  unfold withComposePath; split <;> rfl

theorem CreateEffect.of_params {p q : CreateParams} {w w1 : World} {r : Response}
    (hn : q.Name = p.Name) (ha : q.Address = p.Address) (he : CreateEffect q w w1 r) :
    CreateEffect p w w1 r := by
  unfold CreateEffect at *
  rw [hn, ha] at he
  exact he

/-- What `Create` does to the handles, for every request and every world. -/
theorem Create_effect (c : Collab) (p : CreateParams) (w : World) :
    CreateEffect p w (Create c p w).2 (Create c p w).1 := by
  unfold Create
  by_cases hv : p.Name = "" ∨ p.Title = "" ∨ p.Address = ""
  · rw [if_pos hv]; exact Or.inl ⟨rfl, rfl, rfl, rfl, le_refl _⟩
  · rw [if_neg hv]
    by_cases ht : p.EnableTLS = true ∧ (p.TlsCa = "" ∨ p.TlsCert = "" ∨ p.TlsKey = "")
    · rw [if_pos ht]; exact Or.inl ⟨rfl, rfl, rfl, rfl, le_refl _⟩
    · rw [if_neg ht]
      simp only
      have hm := MkdirAll_sameHandles c
        (filepathJoin [c.storageLocalPath, (withComposePath p).ComposePath]) w
      generalize (MkdirAll c
        (filepathJoin [c.storageLocalPath, (withComposePath p).ComposePath]) w).2 = w0 at hm ⊢
      have hp := provisionTls_sameHandles c (withComposePath p)
        (newClient (withComposePath p) (decide (p.Name = "local")))
        [.WithAddress p.Address, .WithName p.Name] w0
      have ho := provisionTls_options c (withComposePath p)
        (newClient (withComposePath p) (decide (p.Name = "local")))
      cases hpr : provisionTls c (withComposePath p)
        (newClient (withComposePath p) (decide (p.Name = "local")))
        [.WithAddress p.Address, .WithName p.Name] w0 with
      | mk res w1 =>
        rw [hpr] at hp
        have hsame := hm.trans hp
        cases res with
        | error e =>
          obtain ⟨a, b, c1, d⟩ := hsame
          exact Or.inl ⟨rfl, a, c1, d, le_of_eq b.symm⟩
        | ok co =>
          obtain ⟨client1, options1⟩ := co
          have hopt := ho client1 [.WithAddress p.Address, .WithName p.Name] options1 w0
            (by rw [hpr])
          simp only
          apply CreateEffect.of_sameHandles hsame
          apply CreateEffect.of_params (withComposePath_Name p) (withComposePath_Address p)
          have hbase : ∀ id, (applyOptions options1 id).Name = p.Name ∧
              (applyOptions options1 id).host = p.Address := by
            intro id
            rcases hopt with rfl | ⟨ca, cert, key, rfl⟩
            · exact applyOptions_base p.Address p.Name [] id (Or.inl rfl)
            · exact applyOptions_base p.Address p.Name _ id (Or.inr ⟨ca, cert, key, rfl⟩)
          exact createConnect_effect c (withComposePath p) _ client1 options1 w1
            (by rw [(hbase _).1, withComposePath_Name])
            (by rw [(hbase _).2, withComposePath_Address])

/-! ## Credential files -/

theorem MkdirAll_files (c : Collab) (path : String) (w : World) :
    (MkdirAll c path w).2.files = w.files := by
  unfold MkdirAll
  by_cases h : c.mkdirErr path = true <;> simp [h]

theorem writeCerts_ok (c : Collab) (root : String) (certs : List (String × String))
    (w : World)
    (h : ∀ s ∈ certs,
      c.mkdirErr (filepathDir (filepathJoin [c.storageCertPath, root, s.1])) = false ∧
      c.writeErr (filepathJoin [c.storageCertPath, root, s.1]) = false) :
    (writeCerts c root certs w).1 = none ∧
    (writeCerts c root certs w).2.files =
      w.files ++ certs.map (fun s => (filepathJoin [c.storageCertPath, root, s.1], s.2)) := by
  induction certs generalizing w with
  | nil => simp [writeCerts]
  | cons s rest ih =>
    obtain ⟨h1, h2⟩ := h s (List.mem_cons_self _ _)
    have hrest := fun t ht => h t (List.mem_cons_of_mem _ ht)
    unfold writeCerts
    simp only [MkdirAll, WriteFile, h1, h2, Bool.false_eq_true, if_false]
    obtain ⟨i1, i2⟩ := ih _ hrest
    rw [i1, i2]
    simp

theorem withComposePath_fields (p : CreateParams) :
    (withComposePath p).EnableTLS = p.EnableTLS ∧ (withComposePath p).TlsCa = p.TlsCa ∧
    (withComposePath p).TlsCert = p.TlsCert ∧ (withComposePath p).TlsKey = p.TlsKey := by
  unfold withComposePath; split <;> exact ⟨rfl, rfl, rfl, rfl⟩

theorem createConnect_success (c : Collab) (p : CreateParams) (d : Bool) (client : Client)
    (options : List DockerOption) (w : World) (hb : c.builderErr options = false)
    (hi : c.info (applyOptions options w.nextHandle) 0 ≠ none) :
    (createConnect c p d client options w).1 = .success ∧
    (createConnect c p d client options w).2.files = w.files ∧
    ∃ env, GetEnvByName client.Name (createConnect c p d client options w).2 = .ok env ∧
      env.TlsCa = client.TlsCa ∧ env.TlsCert = client.TlsCert ∧
      env.TlsKey = client.TlsKey ∧ env.Default = client.Default := by
  cases hi0 : c.info (applyOptions options w.nextHandle) 0 with
  | none => exact absurd hi0 hi
  | some i =>
    have key : ∀ (cl : Client) (reg : Registry) (k : String),
        (Registry.set reg k cl).get k = some cl := by
      intro cl reg k
      simp [Registry.set, Registry.get, List.lookup]
    by_cases hs : w.Sdk.Name = p.Name ∧ ¬ w.Sdk.host = p.Address <;>
    cases d <;>
    by_cases hc : c.containerInfoErr (applyOptions options w.nextHandle) = true <;>
    cases hi1 : c.info (applyOptions options w.nextHandle) 1 <;>
    simp [createConnect, NewBuilder, hb, hi0, hi1, hc, if_pos, if_neg, hs, UpdateEnv,
      Builder.Close, closeClient, cancelCtx, GetEnvByName, key]

/-! ## The active handle stays live -/

/-- What `Switch` does to the handles: nothing but possibly using up an
identity, or retiring the active handle once and installing the candidate. -/
theorem Switch_effect (c : Collab) (name : String) (w : World) :
    ((Switch c name w).2.Sdk = w.Sdk ∧ (Switch c name w).2.cancelled = w.cancelled ∧
      (Switch c name w).2.closed = w.closed ∧
      w.nextHandle ≤ (Switch c name w).2.nextHandle) ∨
    ((Switch c name w).1 = .success ∧ (Switch c name w).2.Sdk.id = w.nextHandle ∧
      (Switch c name w).2.cancelled = w.cancelled ++ [w.Sdk.id] ∧
      (Switch c name w).2.closed = w.closed ++ [w.Sdk.id] ∧
      (Switch c name w).2.nextHandle = w.nextHandle + 1) := by
  by_cases hname : name = ""
  · left; simp [Switch, hname]
  · cases hreg : w.docker with
    | none => left; simp [Switch, hname, hreg]
    | some reg =>
      cases hrow : reg.get name with
      | none => left; simp [Switch, hname, hreg, hrow]
      | some row =>
        by_cases haddr : w.Sdk.host = row.Address
        · left; simp [Switch, hname, hreg, hrow, haddr]
        · by_cases hb : c.builderErr (switchOptions row) = true
          · left; simp [Switch, hname, hreg, hrow, haddr, NewBuilder, hb]
          · cases hi : c.info (applyOptions (switchOptions row) w.nextHandle) 0 with
            | none => left; simp [Switch, hname, hreg, hrow, haddr, NewBuilder, hb, hi]
            | some i =>
              right
              by_cases hs : c.saveErr = true <;>
                simp [Switch, hname, hreg, hrow, haddr, NewBuilder, hb, hi, hs, closeClient,
                  cancelCtx, applyOptions_id]

theorem saveDocker_handles (c : Collab) (reg : Registry) (w : World) :
    (saveDocker c reg w).Sdk = w.Sdk ∧ (saveDocker c reg w).cancelled = w.cancelled ∧
    (saveDocker c reg w).closed = w.closed ∧
    (saveDocker c reg w).nextHandle = w.nextHandle := by
  unfold saveDocker
  by_cases h : c.saveErr = true <;> simp [h]

/-- A request that leaves the active handle installed, and cancels or closes
besides already retired handles only handles built during the request,
keeps the mark right. -/
theorem Tracked.kept {w w1 : World} {r : Bool} (h : Tracked (w, r))
    (hs : w1.Sdk = w.Sdk) (hn : w.nextHandle ≤ w1.nextHandle)
    (hc : ∀ i ∈ w1.cancelled, i ∈ w.cancelled ∨ (w.nextHandle ≤ i ∧ i < w1.nextHandle))
    (hc2 : ∀ i ∈ w.cancelled, i ∈ w1.cancelled)
    (hd : ∀ i ∈ w1.closed, i ∈ w.closed ∨ (w.nextHandle ≤ i ∧ i < w1.nextHandle))
    (hd2 : ∀ i ∈ w.closed, i ∈ w1.closed) : Tracked (w1, r) := by
  obtain ⟨⟨f1, f2, f3⟩, hl, hr⟩ := h
  simp only at f1 f2 f3 hl hr
  refine ⟨⟨?_, ?_, ?_⟩, ?_, ?_⟩
  · show w1.Sdk.id < w1.nextHandle
    rw [hs]; exact lt_of_lt_of_le f1 hn
  · intro i hi
    rcases hc i hi with h | h
    · exact lt_of_lt_of_le (f2 i h) hn
    · exact h.2
  · intro i hi
    rcases hd i hi with h | h
    · exact lt_of_lt_of_le (f3 i h) hn
    · exact h.2
  · intro hr0
    obtain ⟨l1, l2⟩ := hl hr0
    constructor
    · show w1.Sdk.id ∉ w1.cancelled
      rw [hs]
      intro hi
      rcases hc _ hi with h | h
      · exact l1 h
      · exact absurd f1 (not_lt_of_le h.1)
    · show w1.Sdk.id ∉ w1.closed
      rw [hs]
      intro hi
      rcases hd _ hi with h | h
      · exact l2 h
      · exact absurd f1 (not_lt_of_le h.1)
  · intro hr1
    obtain ⟨r1, r2⟩ := hr hr1
    constructor
    · show w1.Sdk.id ∈ w1.cancelled
      rw [hs]; exact hc2 _ r1
    · show w1.Sdk.id ∈ w1.closed
      rw [hs]; exact hd2 _ r2

/-- A request that retires the active handle and installs the handle it has
built leaves a live handle installed. -/
theorem Tracked.replaced {w w1 : World} {r : Bool} (h : Tracked (w, r))
    (hid : w1.Sdk.id = w.nextHandle) (hc : w1.cancelled = w.cancelled ++ [w.Sdk.id])
    (hd : w1.closed = w.closed ++ [w.Sdk.id]) (hn : w1.nextHandle = w.nextHandle + 1) :
    Tracked (w1, false) := by
  obtain ⟨⟨f1, f2, f3⟩, _, _⟩ := h
  simp only at f1 f2 f3
  refine ⟨⟨?_, ?_, ?_⟩, ?_, ?_⟩
  · show w1.Sdk.id < w1.nextHandle
    rw [hid, hn]; exact Nat.lt_succ_self _
  · intro i hi
    show i < w1.nextHandle
    rw [hn]
    have hi2 : i ∈ w.cancelled ++ [w.Sdk.id] := hc ▸ hi
    rcases List.mem_append.mp hi2 with h | h
    · exact Nat.lt_succ_of_lt (f2 i h)
    · rw [List.mem_singleton.mp h]; exact Nat.lt_succ_of_lt f1
  · intro i hi
    show i < w1.nextHandle
    rw [hn]
    have hi2 : i ∈ w.closed ++ [w.Sdk.id] := hd ▸ hi
    rcases List.mem_append.mp hi2 with h | h
    · exact Nat.lt_succ_of_lt (f3 i h)
    · rw [List.mem_singleton.mp h]; exact Nat.lt_succ_of_lt f1
  · intro _
    constructor
    · show w1.Sdk.id ∉ w1.cancelled
      rw [hid, hc]
      intro hi
      rcases List.mem_append.mp hi with h | h
      · exact lt_irrefl _ (f2 _ h)
      · rw [List.mem_singleton.mp h] at f1; exact lt_irrefl _ f1
    · show w1.Sdk.id ∉ w1.closed
      rw [hid, hd]
      intro hi
      rcases List.mem_append.mp hi with h | h
      · exact lt_irrefl _ (f3 _ h)
      · rw [List.mem_singleton.mp h] at f1; exact lt_irrefl _ f1
  · intro h; cases h

theorem Tracked_create (c : Collab) (p : CreateParams) (s : World × Bool)
    (h : Tracked s) : Tracked (track (.create c p) s) := by
  obtain ⟨w, r⟩ := s
  have hfresh : w.Sdk.id < w.nextHandle := h.1.1
  have he := Create_effect c p w
  simp only [track, Request.apply, Request.deletesActive, Bool.or_false]
  generalize (Create c p w).2 = w1 at he ⊢
  generalize (Create c p w).1 = resp at he
  rcases he with ⟨_, a, b, d, e⟩ | ⟨_, _, _, a, _, _, b, d, e⟩ | ⟨_, _, a, b, d, e⟩
  · rw [if_pos (by rw [a])]
    exact h.kept a e (fun i hi => Or.inl (b ▸ hi)) (fun i hi => b.symm ▸ hi)
      (fun i hi => Or.inl (d ▸ hi)) (fun i hi => d.symm ▸ hi)
  · rw [if_neg (by rw [a]; exact fun e2 => lt_irrefl _ (e2 ▸ hfresh))]
    exact h.replaced a b d e
  · rw [if_pos (by rw [a])]
    refine h.kept a (by rw [e]; exact Nat.le_succ _) ?_ ?_ ?_ ?_
    · intro i hi
      rw [b] at hi
      rcases List.mem_append.mp hi with h2 | h2
      · exact Or.inl h2
      · rw [List.mem_singleton.mp h2, e]; exact Or.inr ⟨le_refl _, Nat.lt_succ_self _⟩
    · intro i hi; rw [b]; exact List.mem_append_left _ hi
    · intro i hi
      rw [d] at hi
      rcases List.mem_append.mp hi with h2 | h2
      · exact Or.inl h2
      · rw [List.mem_singleton.mp h2, e]; exact Or.inr ⟨le_refl _, Nat.lt_succ_self _⟩
    · intro i hi; rw [d]; exact List.mem_append_left _ hi

theorem Tracked_switch (c : Collab) (name : String) (s : World × Bool)
    (h : Tracked s) : Tracked (track (.switch c name) s) := by
  obtain ⟨w, r⟩ := s
  have hfresh : w.Sdk.id < w.nextHandle := h.1.1
  have he := Switch_effect c name w
  simp only [track, Request.apply, Request.deletesActive, Bool.or_false]
  generalize (Switch c name w).2 = w1 at he ⊢
  generalize (Switch c name w).1 = resp at he
  rcases he with ⟨a, b, d, e⟩ | ⟨_, a, b, d, e⟩
  · rw [if_pos (by rw [a])]
    exact h.kept a e (fun i hi => Or.inl (b ▸ hi)) (fun i hi => b.symm ▸ hi)
      (fun i hi => Or.inl (d ▸ hi)) (fun i hi => d.symm ▸ hi)
  · rw [if_neg (by rw [a]; exact fun e2 => lt_irrefl _ (e2 ▸ hfresh))]
    exact h.replaced a b d e

theorem Delete_handles (c : Collab) (names : List String) (w : World) (reg : Registry)
    (hreg : w.docker = some reg) :
    (Delete c names w).2.Sdk = (deleteLoop names reg w).2.Sdk ∧
    (Delete c names w).2.cancelled = (deleteLoop names reg w).2.cancelled ∧
    (Delete c names w).2.closed = (deleteLoop names reg w).2.closed ∧
    (Delete c names w).2.nextHandle = (deleteLoop names reg w).2.nextHandle := by
  unfold Delete GetValue
  rw [hreg]
  simp only
  cases hloop : deleteLoop names reg w with
  | mk res w1 =>
    cases res with
    | none => exact ⟨rfl, rfl, rfl, rfl⟩
    | some setting => exact saveDocker_handles c setting w1

theorem Tracked_delete (c : Collab) (names : List String) (s : World × Bool)
    (h : Tracked s) : Tracked (track (.delete c names) s) := by
  obtain ⟨w, r⟩ := s
  simp only [track, Request.apply, Request.deletesActive, GetValue]
  cases hreg : w.docker with
  | none =>
    have hw : (Delete c names w).2 = w := by simp [Delete, hreg]
    rw [hw]
    simpa using h
  | some reg =>
    obtain ⟨a, b, d, e⟩ := Delete_handles c names w reg hreg
    rw [deleteLoop_Sdk] at a
    obtain ⟨o1, o2, o3⟩ := deleteLoop_only_active names reg w
    rw [o3] at e
    simp only [a, if_true]
    cases ht : touchesActive w.Sdk.host names reg with
    | false =>
      obtain ⟨u1, u2⟩ := deleteLoop_untouched names reg w ht
      rw [Bool.or_false]
      exact h.kept a (le_of_eq e.symm)
        (fun i hi => Or.inl (by rw [b, u1] at hi; exact hi))
        (fun i hi => by rw [b, u1]; exact hi)
        (fun i hi => Or.inl (by rw [d, u2] at hi; exact hi))
        (fun i hi => by rw [d, u2]; exact hi)
    | true =>
      obtain ⟨t1, t2⟩ := deleteLoop_touched names reg w ht
      obtain ⟨⟨f1, f2, f3⟩, _, _⟩ := h
      simp only at f1 f2 f3
      rw [Bool.or_true]
      refine ⟨⟨?_, ?_, ?_⟩, ?_, ?_⟩
      · show (Delete c names w).2.Sdk.id < (Delete c names w).2.nextHandle
        rw [a, e]; exact f1
      · intro i hi
        show i < (Delete c names w).2.nextHandle
        rw [e]
        have hi2 : i ∈ (deleteLoop names reg w).2.cancelled := b ▸ hi
        rcases o1 i hi2 with h2 | h2
        · exact f2 i h2
        · rw [h2]; exact f1
      · intro i hi
        show i < (Delete c names w).2.nextHandle
        rw [e]
        have hi2 : i ∈ (deleteLoop names reg w).2.closed := d ▸ hi
        rcases o2 i hi2 with h2 | h2
        · exact f3 i h2
        · rw [h2]; exact f1
      · intro h2; cases h2
      · intro _
        constructor
        · show (Delete c names w).2.Sdk.id ∈ (Delete c names w).2.cancelled
          rw [a, b]; exact t1
        · show (Delete c names w).2.Sdk.id ∈ (Delete c names w).2.closed
          rw [a, d]; exact t2

theorem Delete_Sdk (c : Collab) (names : List String) (w : World) :
    (Delete c names w).2.Sdk = w.Sdk := by
  cases hreg : w.docker with
  | none => simp [Delete, hreg]
  | some reg =>
    rw [(Delete_handles c names w reg hreg).1, deleteLoop_Sdk]

theorem Tracked_track (r : Request) (s : World × Bool) (h : Tracked s) :
    Tracked (track r s) := by
  cases r with
  | create c p => exact Tracked_create c p s h
  | switch c name => exact Tracked_switch c name s h
  | delete c names => exact Tracked_delete c names s h

theorem Tracked_run (reqs : List Request) (s : World × Bool) (h : Tracked s) :
    Tracked (run reqs s) := by
  induction reqs generalizing s with
  | nil => exact h
  | cons r rest ih => exact ih (track r s) (Tracked_track r s h)

/-! ## Reads depend on the slot and the registry only -/

theorem GetList_congr (w w1 : World) (h1 : w1.Sdk = w.Sdk) (h2 : w1.docker = w.docker) :
    (GetList w1).1 = (GetList w).1 := by
  simp only [GetList, GetValue, h1, h2]

theorem GetDetail_congr (c : Collab) (name : String) (w w1 : World) (h1 : w1.Sdk = w.Sdk)
    (h2 : w1.docker = w.docker) : (GetDetail c name w1).1 = (GetDetail c name w).1 := by
  have hg : GetEnvByName (if name = "" then w.Sdk.Name else name) w1 =
      GetEnvByName (if name = "" then w.Sdk.Name else name) w := by
    simp only [GetEnvByName, GetValue, h2]
  simp only [GetDetail, h1, hg]
  cases GetEnvByName (if name = "" then w.Sdk.Name else name) w <;> rfl

/-! ## Theorems about the handlers -/

/-- C1: when at least one requested name is absent from the registry,
`Delete` answers with the not-found error and the registry held by the
settings collaborator after the call is the registry before it. -/
theorem Delete_missing_name_keeps_registry (c : Collab) (w : World) (reg : Registry)
    (names : List String) (hreg : w.docker = some reg)
    (hmiss : ∃ n ∈ names, reg.get n = none) :
    (Delete c names w).1 = .failed .notFound ∧ (Delete c names w).2.docker = some reg := by
  have h1 := deleteLoop_none_of_missing names reg w hmiss
  have h2 := deleteLoop_docker names reg w
  cases hloop : deleteLoop names reg w with
  | mk r w1 =>
    rw [hloop] at h1 h2
    simp only at h1 h2
    subst h1
    simp only [Delete, GetValue, hreg, hloop]
    exact ⟨trivial, h2.trans hreg⟩

/-- C1, the example of the specification: with `a` and `b` registered and
`missing` not, deleting `a`, `missing`, `b` fails and both entries stay. -/
theorem Delete_missing_name_keeps_registry_witness :
    (Delete calm ["a", "missing", "b"]
        (startWorld [("a", plainEnv "a" "tcp://a:2375"), ("b", plainEnv "b" "tcp://b:2375")])).1
      = .failed .notFound ∧
    (Delete calm ["a", "missing", "b"]
        (startWorld [("a", plainEnv "a" "tcp://a:2375"), ("b", plainEnv "b" "tcp://b:2375")])).2.docker
      = some [("a", plainEnv "a" "tcp://a:2375"), ("b", plainEnv "b" "tcp://b:2375")] :=
  Delete_missing_name_keeps_registry calm _ _ ["a", "missing", "b"] rfl
    ⟨"missing", by decide, by decide⟩

/-- C5: switching to a registered name whose address is the one the active
handle reports answers success and changes nothing at all: same handle, no
cancel, no close, no candidate, no monitoring task, no disk-usage reset. -/
theorem Switch_same_address_noop (c : Collab) (w : World) (reg : Registry)
    (name : String) (row : Client) (hname : name ≠ "") (hreg : w.docker = some reg)
    (hrow : reg.get name = some row) (haddr : row.Address = w.Sdk.host) :
    Switch c name w = (.success, w) := by
  simp [Switch, hname, hreg, hrow, haddr]

/-- C5 at the start world: switching to `local` while `local` is active. -/
theorem Switch_same_address_noop_witness :
    Switch calm "local" (startWorld twoEnvs) = (.success, startWorld twoEnvs) :=
  Switch_same_address_noop calm (startWorld twoEnvs) twoEnvs "local"
    (plainEnv "local" "unix:///var/run/docker.sock") (by decide) rfl rfl rfl

/-- C2: when the target is registered at another address and building the
candidate or its `Info` round-trip fails, `Switch` answers with an error and
the active slot is the one from before: same handle and name, nothing more
cancelled or closed, same registry, and both reads of the active environment
(`GetList`, and `GetDetail` without a name) answer as before. -/
theorem Switch_failure_keeps_active (c : Collab) (w : World) (reg : Registry)
    (name : String) (row : Client) (hreg : w.docker = some reg)
    (hrow : reg.get name = some row) (haddr : w.Sdk.host ≠ row.Address)
    (hfail : c.builderErr (switchOptions row) = true ∨
      c.info (applyOptions (switchOptions row) w.nextHandle) 0 = none) :
    (Switch c name w).1.isError = true ∧
    (Switch c name w).2.Sdk = w.Sdk ∧
    (Switch c name w).2.cancelled = w.cancelled ∧
    (Switch c name w).2.closed = w.closed ∧
    (Switch c name w).2.docker = w.docker ∧
    (GetList (Switch c name w).2).1 = (GetList w).1 ∧
    (GetDetail c "" (Switch c name w).2).1 = (GetDetail c "" w).1 := by
  have core : (Switch c name w).1.isError = true ∧ (Switch c name w).2.Sdk = w.Sdk ∧
      (Switch c name w).2.cancelled = w.cancelled ∧ (Switch c name w).2.closed = w.closed ∧
      (Switch c name w).2.docker = w.docker := by
    by_cases hname : name = ""
    · simp [Switch, hname, Response.isError]
    · by_cases hb : c.builderErr (switchOptions row) = true
      · simp [Switch, hname, hreg, hrow, haddr, NewBuilder, hb, Response.isError]
      · have hi : c.info (applyOptions (switchOptions row) w.nextHandle) 0 = none := by
          rcases hfail with h | h
          · exact absurd h hb
          · exact h
        simp [Switch, hname, hreg, hrow, haddr, NewBuilder, hb, hi, Response.isError]
  obtain ⟨a, b, d, e, f⟩ := core
  exact ⟨a, b, d, e, f, GetList_congr _ _ b f, GetDetail_congr c "" _ _ b f⟩

/-- C2 at the start world: the remote daemon does not answer, `local` stays. -/
theorem Switch_failure_keeps_active_witness :
    (Switch silent "remote" (startWorld twoEnvs)).1.isError = true ∧
    (Switch silent "remote" (startWorld twoEnvs)).2.Sdk = localHandle ∧
    (Switch silent "remote" (startWorld twoEnvs)).2.cancelled = [] ∧
    (Switch silent "remote" (startWorld twoEnvs)).2.closed = [] ∧
    (Switch silent "remote" (startWorld twoEnvs)).2.docker = some twoEnvs ∧
    (GetList (Switch silent "remote" (startWorld twoEnvs)).2).1
      = (GetList (startWorld twoEnvs)).1 ∧
    (GetDetail silent "" (Switch silent "remote" (startWorld twoEnvs)).2).1
      = (GetDetail silent "" (startWorld twoEnvs)).1 :=
  Switch_failure_keeps_active silent (startWorld twoEnvs) twoEnvs "remote"
    (plainEnv "remote" "tcp://10.0.0.5:2376") rfl rfl (by decide) (Or.inr rfl)

/-- C7: evaluation at a target that can be built but does not answer.  Both
`Switch` and `Create` answer with the connection error after building the
candidate (handle 1, the next free identity), and return without cancelling
or closing it. -/
theorem failed_verification_leaves_candidate_open :
    (Switch silent "remote" (startWorld twoEnvs)).1 = .failed .connect ∧
    (Switch silent "remote" (startWorld twoEnvs)).2.nextHandle = 2 ∧
    1 ∉ (Switch silent "remote" (startWorld twoEnvs)).2.closed ∧
    1 ∉ (Switch silent "remote" (startWorld twoEnvs)).2.cancelled ∧
    (Create silent (plainCreate "staging" "tcp://10.0.0.9:2376") (startWorld twoEnvs)).1
      = .failed .connect ∧
    (Create silent (plainCreate "staging" "tcp://10.0.0.9:2376") (startWorld twoEnvs)).2.nextHandle
      = 2 ∧
    1 ∉ (Create silent (plainCreate "staging" "tcp://10.0.0.9:2376") (startWorld twoEnvs)).2.closed ∧
    1 ∉ (Create silent (plainCreate "staging" "tcp://10.0.0.9:2376")
          (startWorld twoEnvs)).2.cancelled := by
  decide

/-- C3: evaluation at a registry in which `local` and `mirror` share the
address of the active handle 0.  Deleting both succeeds and calls the
handle's cancel function twice and closes its transport twice. -/
theorem Delete_shared_address_closes_twice :
    (Delete calm ["local", "mirror"] (startWorld sharedAddress)).1 = .success ∧
    (Delete calm ["local", "mirror"] (startWorld sharedAddress)).2.cancelled = [0, 0] ∧
    (Delete calm ["local", "mirror"] (startWorld sharedAddress)).2.closed = [0, 0] ∧
    ((Delete calm ["local", "mirror"] (startWorld sharedAddress)).2.cancelled.count
        (startWorld sharedAddress).Sdk.id) = 2 := by
  decide

/-- C6: evaluation at the names `remote`, `missing` with only `remote`
registered.  `Delete` answers not-found, the registry of the settings
collaborator still holds `remote`, and the deleted-event for `remote` has
been published. -/
theorem Delete_failure_publishes_event :
    (Delete calm ["remote", "missing"] (startWorld twoEnvs)).1 = .failed .notFound ∧
    (Delete calm ["remote", "missing"] (startWorld twoEnvs)).2.docker = some twoEnvs ∧
    (Delete calm ["remote", "missing"] (startWorld twoEnvs)).2.published = ["remote"] := by
  decide

/-- C4, as stated, fails: from the start world, where `local` is active and
live, deleting `local` succeeds and leaves handle 0 installed although its
context is cancelled and its transport closed; `GetList` then names `local`
as current and `GetDetail` without a name looks up the retired handle's name
and answers not-found. -/
theorem Delete_active_keeps_retired_handle :
    Live (startWorld twoEnvs) ∧
    (Delete calm ["local"] (startWorld twoEnvs)).1 = .success ∧
    (Delete calm ["local"] (startWorld twoEnvs)).2.Sdk = localHandle ∧
    0 ∈ (Delete calm ["local"] (startWorld twoEnvs)).2.cancelled ∧
    0 ∈ (Delete calm ["local"] (startWorld twoEnvs)).2.closed ∧
    (GetList (Delete calm ["local"] (startWorld twoEnvs)).2).1
      = .listing "local" [plainEnv "remote" "tcp://10.0.0.5:2376"] ∧
    (GetDetail calm "" (Delete calm ["local"] (startWorld twoEnvs)).2).1
      = .failed .notFound := by
  refine ⟨?_, ?_, ?_, ?_, ?_, ?_, ?_⟩ <;> decide

/-- C4, amended: after any sequence of `Create`, `Switch` and `Delete` calls
from a start with a live active handle, the active handle is neither
cancelled nor closed unless a `Delete` made since it was installed has come
to an entry registered at its address; in that case the handle is both
cancelled and closed, and it is still the installed one, because no `Delete`
changes which handle is installed. -/
theorem active_handle_live_unless_deleted (w0 : World) (reqs : List Request)
    (hf : Fresh w0) (hl : Live w0) :
    ((run reqs (w0, false)).2 = false → Live (run reqs (w0, false)).1) ∧
    ((run reqs (w0, false)).2 = true → Retired (run reqs (w0, false)).1) ∧
    (∀ (c : Collab) (names : List String),
      (Delete c names (run reqs (w0, false)).1).2.Sdk = (run reqs (w0, false)).1.Sdk) :=
  ⟨(Tracked_run reqs (w0, false) ⟨hf, fun _ => hl, fun h => by cases h⟩).2.1,
   (Tracked_run reqs (w0, false) ⟨hf, fun _ => hl, fun h => by cases h⟩).2.2,
   fun c names => Delete_Sdk c names _⟩

/-- C4, amended, on three runs from the start world.  A `Delete` that aborts
at `missing` before it comes to `local` leaves handle 0 live.  Deleting
`local` retires handle 0; after `local` is created again at the same address
a `Switch` to it keeps the retired handle.  Deleting `local` and switching to
`remote` installs the live handle 1. -/
theorem active_handle_live_unless_deleted_witness :
    Live (run [.delete calm ["missing", "local"]] (startWorld twoEnvs, false)).1 ∧
    Retired (run [.delete calm ["local"],
        .create calm (plainCreate "local" "unix:///var/run/docker.sock"),
        .switch calm "local"] (startWorld twoEnvs, false)).1 ∧
    Live (run [.delete calm ["local"], .switch calm "remote"]
        (startWorld twoEnvs, false)).1 :=
  ⟨(active_handle_live_unless_deleted (startWorld twoEnvs)
      [.delete calm ["missing", "local"]] (by decide) (by decide)).1 (by decide),
   (active_handle_live_unless_deleted (startWorld twoEnvs)
      [.delete calm ["local"],
        .create calm (plainCreate "local" "unix:///var/run/docker.sock"),
        .switch calm "local"] (by decide) (by decide)).2.1 (by decide),
   (active_handle_live_unless_deleted (startWorld twoEnvs)
      [.delete calm ["local"], .switch calm "remote"] (by decide) (by decide)).1
      (by decide)⟩

/-- C8, as stated, fails: a `Create` under the name of the active handle with
another address succeeds and installs the candidate (handle 1) in place of
the handle that was active. -/
theorem Create_replaces_active_handle :
    (Create calm (plainCreate "local" "tcp://10.0.0.5:2376") (startWorld twoEnvs)).1
      = .success ∧
    (Create calm (plainCreate "local" "tcp://10.0.0.5:2376") (startWorld twoEnvs)).2.Sdk
      ≠ (startWorld twoEnvs).Sdk ∧
    (Create calm (plainCreate "local" "tcp://10.0.0.5:2376") (startWorld twoEnvs)).2.Sdk.id
      = 1 ∧
    (Create calm (plainCreate "local" "tcp://10.0.0.5:2376") (startWorld twoEnvs)).2.Sdk.host
      = "tcp://10.0.0.5:2376" := by
  refine ⟨?_, ?_, ?_, ?_⟩ <;> decide

/-- C8, amended: a `Create` that fails, or whose name is not the name of the
active handle, or whose address is the address the active handle reports,
leaves the active slot as it was. -/
theorem Create_keeps_active_slot (c : Collab) (p : CreateParams) (w : World)
    (h : (Create c p w).1 ≠ .success ∨ p.Name ≠ w.Sdk.Name ∨ p.Address = w.Sdk.host) :
    (Create c p w).2.Sdk = w.Sdk := by
  rcases Create_effect c p w with ⟨_, a, _⟩ | ⟨hs, hn, ha, _⟩ | ⟨_, _, a, _⟩
  · exact a
  · rcases h with h | h | h
    · exact absurd hs h
    · exact absurd hn.symm h
    · exact absurd h.symm ha
  · exact a

/-- C8, amended, at the start world: creating `staging` leaves `local` active. -/
theorem Create_keeps_active_slot_witness :
    (Create calm (plainCreate "staging" "tcp://10.0.0.5:2376") (startWorld twoEnvs)).2.Sdk
      = localHandle :=
  Create_keeps_active_slot calm (plainCreate "staging" "tcp://10.0.0.5:2376")
    (startWorld twoEnvs) (Or.inr (Or.inl (by decide)))

/-- C10, as stated, fails for a host without a port: the entry `edge` at
`tcp://myhost` has an empty `serverUrl`, its address parses with host
`myhost`, and `GetDetail` returns it with `serverUrl` still empty. -/
theorem GetDetail_host_without_port :
    calm.urlHost "tcp://myhost" = some "myhost" ∧
    (GetDetail calm "edge" (startWorld [("edge", plainEnv "edge" "tcp://myhost")])).1
      = .detail (plainEnv "edge" "tcp://myhost") ∧
    (plainEnv "edge" "tcp://myhost").ServerUrl = "" := by
  refine ⟨?_, ?_, ?_⟩ <;> decide

/-- C10, amended: for a registered entry, `GetDetail` never changes the
world; an entry with a non-empty `serverUrl` is returned as it is; with an
empty `serverUrl` and an address whose parsed host is `name:port`, with no
colon inside `name` or `port`, the returned `serverUrl` is `name`, the host
before the port delimiter; with an empty `serverUrl` and a parsed host
without a colon, that is without a port, the entry is returned as it is. -/
theorem GetDetail_serverUrl (c : Collab) (w : World) (name : String) (env : Client)
    (henv : GetEnvByName (if name = "" then w.Sdk.Name else name) w = .ok env) :
    (GetDetail c name w).2 = w ∧
    (env.ServerUrl ≠ "" → (GetDetail c name w).1 = .detail env) ∧
    (∀ host port : List Char, env.ServerUrl = "" →
      c.urlHost env.Address = some (String.mk (host ++ ':' :: port)) →
      ':' ∉ host → ':' ∉ port →
      (GetDetail c name w).1 = .detail { env with ServerUrl := String.mk host }) ∧
    (∀ host : String, env.ServerUrl = "" → c.urlHost env.Address = some host →
      ':' ∉ host.data → (GetDetail c name w).1 = .detail env) := by
  refine ⟨?_, ?_, ?_, ?_⟩
  · simp only [GetDetail, henv]
  · intro h
    simp only [GetDetail, henv, h, if_false]
  · intro host port h hu hc _
    have hcut := cutChars_colon_split host port hc
    have hsep : (":" : String).data = [':'] := rfl
    simp only [GetDetail, henv, h, if_true, hu, stringsCut, hsep, hcut]
  · intro host h hu hc
    have hcut := cutChars_colon_none host.data hc
    have hsep : (":" : String).data = [':'] := rfl
    simp only [GetDetail, henv, h, if_true, hu, stringsCut, hsep, hcut]

/-- C10, amended, at the example of the specification: for the entry at
`tcp://10.0.0.5:2376` the returned `serverUrl` is `10.0.0.5`, and the world
is the one from before. -/
theorem GetDetail_serverUrl_witness :
    (GetDetail calm "remote" (startWorld twoEnvs)).2 = startWorld twoEnvs ∧
    (GetDetail calm "remote" (startWorld twoEnvs)).1 = .detail
      { plainEnv "remote" "tcp://10.0.0.5:2376" with ServerUrl := "10.0.0.5" } :=
  have h := GetDetail_serverUrl calm (startWorld twoEnvs) "remote"
    (plainEnv "remote" "tcp://10.0.0.5:2376") rfl
  ⟨h.1, h.2.2.1 "10.0.0.5".data "2376".data (by decide) (by decide) (by decide) (by decide)⟩

/-- C9, as stated, fails.  For the request of the specification's example the
three files are written under the certificate storage root, while the
registry entry holds the paths without that root, which are different
strings.  And a name that is not a plain path element is not kept inside its
own directory: for the name `../x` the files are written into `x` under the
certificate storage root, outside `docker`. -/
theorem Create_stores_relative_paths :
    (Create calm stagingCreate (startWorld twoEnvs)).1 = .success ∧
    (Create calm stagingCreate (startWorld twoEnvs)).2.files.map Prod.fst
      = ["/dpanel/storage/cert/docker/staging/ca.pem",
         "/dpanel/storage/cert/docker/staging/cert.pem",
         "/dpanel/storage/cert/docker/staging/key.pem"] ∧
    ((Create calm stagingCreate (startWorld twoEnvs)).2.docker.bind
        (fun reg => reg.get "staging")).map (fun e => [e.TlsCa, e.TlsCert, e.TlsKey])
      = some ["docker/staging/ca.pem", "docker/staging/cert.pem", "docker/staging/key.pem"] ∧
    ((Create calm stagingCreate (startWorld twoEnvs)).2.docker.bind
        (fun reg => reg.get "staging")).map (fun e => [e.TlsCa, e.TlsCert, e.TlsKey])
      ≠ some ((Create calm stagingCreate (startWorld twoEnvs)).2.files.map Prod.fst) ∧
    (Create calm escapingCreate (startWorld twoEnvs)).1 = .success ∧
    (Create calm escapingCreate (startWorld twoEnvs)).2.files.map Prod.fst
      = ["/dpanel/storage/cert/x/ca.pem",
         "/dpanel/storage/cert/x/cert.pem",
         "/dpanel/storage/cert/x/key.pem"] := by
  refine ⟨?_, ?_, ?_, ?_, ?_, ?_⟩ <;> decide

/-- The credential branch of `Create` in the terms of the code: the files of
`certFiles` are written and the entry holds the joined relative paths. -/
theorem Create_writes_certFiles (c : Collab) (p : CreateParams) (w : World)
    (hname : p.Name ≠ "") (htitle : p.Title ≠ "") (haddr : p.Address ≠ "")
    (htls : p.EnableTLS = true) (hca : p.TlsCa ≠ "") (hcert : p.TlsCert ≠ "")
    (hkey : p.TlsKey ≠ "") (hpem : hasSuffix p.TlsCa ".pem" = false)
    (hfs : ∀ f ∈ certFiles c p, c.mkdirErr (filepathDir f.1) = false ∧ c.writeErr f.1 = false)
    (hb : c.builderErr (certOptions p) = false)
    (hi : c.info (applyOptions (certOptions p) w.nextHandle) 0 ≠ none) :
    (Create c p w).1 = .success ∧
    (Create c p w).2.files = w.files ++ certFiles c p ∧
    ∃ env, GetEnvByName p.Name (Create c p w).2 = .ok env ∧
      env.TlsCa = filepathJoin [filepathJoin ["docker", p.Name], "ca.pem"] ∧
      env.TlsCert = filepathJoin [filepathJoin ["docker", p.Name], "cert.pem"] ∧
      env.TlsKey = filepathJoin [filepathJoin ["docker", p.Name], "key.pem"] ∧
      env.Default = decide (p.Name = "local") := by
  obtain ⟨q1, q2, q3, q4⟩ := withComposePath_fields p
  have hv : ¬ (p.Name = "" ∨ p.Title = "" ∨ p.Address = "") := by
    rintro (h | h | h)
    · exact hname h
    · exact htitle h
    · exact haddr h
  have ht : ¬ (p.EnableTLS = true ∧ (p.TlsCa = "" ∨ p.TlsCert = "" ∨ p.TlsKey = "")) := by
    rintro ⟨_, h | h | h⟩
    · exact hca h
    · exact hcert h
    · exact hkey h
  unfold Create
  rw [if_neg hv, if_neg ht]
  simp only
  have hm := MkdirAll_sameHandles c
    (filepathJoin [c.storageLocalPath, (withComposePath p).ComposePath]) w
  have hmf := MkdirAll_files c
    (filepathJoin [c.storageLocalPath, (withComposePath p).ComposePath]) w
  generalize (MkdirAll c
    (filepathJoin [c.storageLocalPath, (withComposePath p).ComposePath]) w).2 = w0 at hm hmf ⊢
  have hwc := writeCerts_ok c (filepathJoin ["docker", p.Name])
    [("ca.pem", p.TlsCa), ("cert.pem", p.TlsCert), ("key.pem", p.TlsKey)] w0 (by
      intro s hs
      simp only [List.mem_cons, List.mem_singleton, List.not_mem_nil, or_false] at hs
      rcases hs with rfl | rfl | rfl
      · exact hfs (filepathJoin [c.storageCertPath, filepathJoin ["docker", p.Name], "ca.pem"],
          p.TlsCa) (by simp [certFiles])
      · exact hfs (filepathJoin [c.storageCertPath, filepathJoin ["docker", p.Name], "cert.pem"],
          p.TlsCert) (by simp [certFiles])
      · exact hfs (filepathJoin [c.storageCertPath, filepathJoin ["docker", p.Name], "key.pem"],
          p.TlsKey) (by simp [certFiles]))
  cases hw : writeCerts c (filepathJoin ["docker", p.Name])
    [("ca.pem", p.TlsCa), ("cert.pem", p.TlsCert), ("key.pem", p.TlsKey)] w0 with
  | mk e w1 =>
    rw [hw] at hwc
    obtain ⟨e1, e2⟩ := hwc
    simp only at e1 e2
    subst e1
    have hs1 := writeCerts_sameHandles c (filepathJoin ["docker", p.Name])
      [("ca.pem", p.TlsCa), ("cert.pem", p.TlsCert), ("key.pem", p.TlsKey)] w0
    rw [hw] at hs1
    have hnext : w1.nextHandle = w.nextHandle := (hm.trans hs1).2.1
    simp only [provisionTls, q1, q2, q3, q4, htls, hpem, if_true, Bool.false_eq_true,
      if_false, withComposePath_Name, hw]
    have hopt : [DockerOption.WithAddress p.Address, DockerOption.WithName p.Name] ++
        [DockerOption.WithTLS (filepathJoin [filepathJoin ["docker", p.Name], "ca.pem"])
          (filepathJoin [filepathJoin ["docker", p.Name], "cert.pem"])
          (filepathJoin [filepathJoin ["docker", p.Name], "key.pem"])] = certOptions p := rfl
    rw [hopt]
    obtain ⟨r1, r2, env, r3, r4, r5, r6, r7⟩ := createConnect_success c (withComposePath p)
      (decide (p.Name = "local"))
      { newClient (withComposePath p) (decide (p.Name = "local")) with
        TlsCa := filepathJoin [filepathJoin ["docker", p.Name], "ca.pem"],
        TlsCert := filepathJoin [filepathJoin ["docker", p.Name], "cert.pem"],
        TlsKey := filepathJoin [filepathJoin ["docker", p.Name], "key.pem"] }
      (certOptions p) w1 hb (by rw [hnext]; exact hi)
    refine ⟨r1, ?_, env, ?_, r4, r5, r6, r7⟩
    · rw [r2, e2, hmf]; rfl
    · have r3b : GetEnvByName (withComposePath p).Name
          (createConnect c (withComposePath p) (decide (p.Name = "local"))
            { newClient (withComposePath p) (decide (p.Name = "local")) with
              TlsCa := filepathJoin [filepathJoin ["docker", p.Name], "ca.pem"],
              TlsCert := filepathJoin [filepathJoin ["docker", p.Name], "cert.pem"],
              TlsKey := filepathJoin [filepathJoin ["docker", p.Name], "key.pem"] }
            (certOptions p) w1).2 = .ok env := r3
      rw [withComposePath_Name] at r3b
      exact r3b

/-- C9, amended: a `Create` request whose name is a plain path element, with
TLS enabled, three non-empty credential values and a CA value that does not
end in `.pem`, whose directory creations, file writes, build and
verification succeed, answers success and writes exactly the three files
`ca.pem`, `cert.pem`, `key.pem` in the credential directory of the
environment, `docker/<name>` under the certificate storage root, with the
supplied CA, certificate and key as content; the stored entry has `tlsCa`,
`tlsCert`, `tlsKey` equal to `docker/<name>/ca.pem`, `docker/<name>/cert.pem`,
`docker/<name>/key.pem`, the paths of those files relative to the
certificate storage root, and its default flag says whether the name is
`local`. -/
theorem Create_provisions_credentials (c : Collab) (p : CreateParams) (w : World)
    (hplain : PlainElement p.Name.data) (htitle : p.Title ≠ "") (haddr : p.Address ≠ "")
    (htls : p.EnableTLS = true) (hca : p.TlsCa ≠ "") (hcert : p.TlsCert ≠ "")
    (hkey : p.TlsKey ≠ "") (hpem : hasSuffix p.TlsCa ".pem" = false)
    (hfs : ∀ f ∈ certFiles c p, c.mkdirErr (filepathDir f.1) = false ∧ c.writeErr f.1 = false)
    (hb : c.builderErr (certOptions p) = false)
    (hi : c.info (applyOptions (certOptions p) w.nextHandle) 0 ≠ none) :
    (Create c p w).1 = .success ∧
    (Create c p w).2.files = w.files ++
      [(credentialDir c p.Name ++ "/ca.pem", p.TlsCa),
       (credentialDir c p.Name ++ "/cert.pem", p.TlsCert),
       (credentialDir c p.Name ++ "/key.pem", p.TlsKey)] ∧
    credentialDir c p.Name = filepathJoin [c.storageCertPath, "docker"] ++ "/" ++ p.Name ∧
    ∃ env, GetEnvByName p.Name (Create c p w).2 = .ok env ∧
      env.TlsCa = "docker/" ++ p.Name ++ "/ca.pem" ∧
      env.TlsCert = "docker/" ++ p.Name ++ "/cert.pem" ∧
      env.TlsKey = "docker/" ++ p.Name ++ "/key.pem" ∧
      filepathJoin [c.storageCertPath, env.TlsCa] = credentialDir c p.Name ++ "/ca.pem" ∧
      filepathJoin [c.storageCertPath, env.TlsCert] = credentialDir c p.Name ++ "/cert.pem" ∧
      filepathJoin [c.storageCertPath, env.TlsKey] = credentialDir c p.Name ++ "/key.pem" ∧
      env.Default = decide (p.Name = "local") := by
  have hname : p.Name ≠ "" := fun e => hplain.1 (by rw [e])
  obtain ⟨h1, h2, env, h3, h4, h5, h6, h7⟩ :=
    Create_writes_certFiles c p w hname htitle haddr htls hca hcert hkey hpem hfs hb hi
  have pca : PlainElement "ca.pem".data := by decide
  have pcert : PlainElement "cert.pem".data := by decide
  have pkey : PlainElement "key.pem".data := by decide
  have fix : ∀ a file rest : String, "/" ++ file = rest → a ++ "/" ++ file = a ++ rest :=
    fun a file rest e => by rw [String.append_assoc, e]
  have w1 := (filepathJoin_written c.storageCertPath p.Name "ca.pem" hplain pca).trans
    (fix _ "ca.pem" "/ca.pem" rfl)
  have w2 := (filepathJoin_written c.storageCertPath p.Name "cert.pem" hplain pcert).trans
    (fix _ "cert.pem" "/cert.pem" rfl)
  have w3 := (filepathJoin_written c.storageCertPath p.Name "key.pem" hplain pkey).trans
    (fix _ "key.pem" "/key.pem" rfl)
  have s1 := (filepathJoin_stored p.Name "ca.pem" hplain pca).trans
    (fix _ "ca.pem" "/ca.pem" rfl)
  have s2 := (filepathJoin_stored p.Name "cert.pem" hplain pcert).trans
    (fix _ "cert.pem" "/cert.pem" rfl)
  have s3 := (filepathJoin_stored p.Name "key.pem" hplain pkey).trans
    (fix _ "key.pem" "/key.pem" rfl)
  have r1 := filepathJoin_resolved c.storageCertPath p.Name "ca.pem" hplain pca
  have r2 := filepathJoin_resolved c.storageCertPath p.Name "cert.pem" hplain pcert
  have r3 := filepathJoin_resolved c.storageCertPath p.Name "key.pem" hplain pkey
  rw [fix ("docker/" ++ p.Name) "ca.pem" "/ca.pem" rfl,
    fix (filepathJoin [c.storageCertPath, "docker", p.Name]) "ca.pem" "/ca.pem" rfl] at r1
  rw [fix ("docker/" ++ p.Name) "cert.pem" "/cert.pem" rfl,
    fix (filepathJoin [c.storageCertPath, "docker", p.Name]) "cert.pem" "/cert.pem" rfl] at r2
  rw [fix ("docker/" ++ p.Name) "key.pem" "/key.pem" rfl,
    fix (filepathJoin [c.storageCertPath, "docker", p.Name]) "key.pem" "/key.pem" rfl] at r3
  refine ⟨h1, ?_, filepathJoin_credentialDir _ _ hplain, env, h3, h4.trans s1, h5.trans s2,
    h6.trans s3, ?_, ?_, ?_, h7⟩
  · rw [h2]
    simp only [certFiles, w1, w2, w3, credentialDir]
  · rw [h4, s1]; exact r1
  · rw [h5, s2]; exact r2
  · rw [h6, s3]; exact r3

/-- C9, amended, at the example of the specification: `staging` at
`tcp://10.0.0.5:2376` with three inline credentials. -/
theorem Create_provisions_credentials_witness :
    (Create calm stagingCreate (startWorld twoEnvs)).1 = .success ∧
    (Create calm stagingCreate (startWorld twoEnvs)).2.files =
      [("/dpanel/storage/cert/docker/staging/ca.pem", "<CA PEM>"),
       ("/dpanel/storage/cert/docker/staging/cert.pem", "<CERT PEM>"),
       ("/dpanel/storage/cert/docker/staging/key.pem", "<KEY PEM>")] ∧
    credentialDir calm "staging" = "/dpanel/storage/cert/docker/staging" ∧
    ∃ env, GetEnvByName "staging" (Create calm stagingCreate (startWorld twoEnvs)).2 = .ok env ∧
      env.TlsCa = "docker/staging/ca.pem" ∧ env.TlsCert = "docker/staging/cert.pem" ∧
      env.TlsKey = "docker/staging/key.pem" ∧
      filepathJoin ["/dpanel/storage/cert", env.TlsCa]
        = "/dpanel/storage/cert/docker/staging/ca.pem" ∧
      filepathJoin ["/dpanel/storage/cert", env.TlsCert]
        = "/dpanel/storage/cert/docker/staging/cert.pem" ∧
      filepathJoin ["/dpanel/storage/cert", env.TlsKey]
        = "/dpanel/storage/cert/docker/staging/key.pem" ∧
      env.Default = false :=
  Create_provisions_credentials calm stagingCreate (startWorld twoEnvs) (by decide)
    (by decide) (by decide) rfl (by decide) (by decide) (by decide) (by decide)
    (by decide) rfl (by decide)

end DPanel
